import Mathlib

/-!
# vault-cli: the request/response transport of `pkg/vault-client.go`

A shallow embedding of `NewVaultClient`, `SetVerbose`, `validateConnection` and
`VaultClient.request`.

The function `request` talks to four libraries (`encoding/json`, `net/http`,
`log`, `os`).  Every call into them is recorded in a trace of events, so that
"no request is sent", "the body is closed" and "the decoder is not called" are
statements about the trace.  A call ends by returning to its caller or, through
`log.Fatal`, by ending the process.

* The network, the checks of `http.NewRequest` and the encoder of the payload are
  parameters (`World`).
* The streaming JSON decoder is modelled concretely after the scanner of
  `encoding/json`: `Decoder.Decode` reads the first JSON value of the stream.
  Text is a list of Unicode characters (a body in valid UTF-8); a response
  carries its whole body.
* How a JSON value is stored in a destination depends on the Go type of the
  destination; `request` takes that step as the argument `assign`.  The types of
  package `model` are not in the source tree; `assignRecord` is the step for a
  struct of string fields, `assignValue` the step for the data built from
  strings, booleans, integers, structs and slices.
-/

namespace VaultCli

/-! ## JSON text: the scanner of `encoding/json` -/

/-- JSON values as read by the decoder. -/
inductive JValue where
  | null
  | bool (b : Bool)
  | number (literal : String)
  | string (s : String)
  | array (elems : List JValue)
  | object (members : List (String × JValue))

/-- Result of scanning a piece of JSON text: a value and the unread rest, a
syntax error (with the context phrase of the Go error message), the input ending
inside the value, or the recursion budget of the model running out. -/
inductive Scan (α : Type) where
  | ok (value : α) (rest : List Char)
  | bad (context : String)
  | truncated
  | exhausted
  deriving DecidableEq

/-- Whitespace of the scanner (`isSpace`): space, tab, carriage return, newline. -/
def isSpace (c : Char) : Bool :=
  c.toNat = 32 || c.toNat = 9 || c.toNat = 13 || c.toNat = 10

/-- Drops leading whitespace. -/
def skipSpace : List Char → List Char
  | [] => []
  | c :: cs => if isSpace c then skipSpace cs else c :: cs

/-- One element of a string literal: a character, or the UTF-16 code unit written
by a `\uXXXX` escape. -/
inductive StrItem where
  | char (c : Char)
  | unit (n : Nat)
  deriving DecidableEq

/-- Position inside a string literal: plain text (`stateInString`), after a
backslash (`stateInStringEsc`), or inside `\u` with `seen` hex digits read
(`stateInStringEscU` and its successors). -/
inductive StrState where
  | plain
  | esc
  | hex (seen : Nat) (acc : Nat)

/-- Value of a hexadecimal digit. -/
def hexVal (c : Char) : Option Nat :=
  if 48 ≤ c.toNat ∧ c.toNat ≤ 57 then some (c.toNat - 48)
  else if 97 ≤ c.toNat ∧ c.toNat ≤ 102 then some (c.toNat - 87)
  else if 65 ≤ c.toNat ∧ c.toNat ≤ 70 then some (c.toNat - 55)
  else none

/-- The character denoted by a one-letter escape: `b f n r t \ / "`. -/
def unescape (c : Char) : Option Char :=
  if c.toNat = 98 then some (Char.ofNat 8)
  else if c.toNat = 102 then some (Char.ofNat 12)
  else if c.toNat = 110 then some (Char.ofNat 10)
  else if c.toNat = 114 then some (Char.ofNat 13)
  else if c.toNat = 116 then some (Char.ofNat 9)
  else if c.toNat = 92 ∨ c.toNat = 47 ∨ c.toNat = 34 then some c
  else none

/-- Scans a string literal after its opening quote; `acc` holds the items read so
far, newest first. -/
def scanString : StrState → List Char → List StrItem → Scan (List StrItem)
  | _, [], _ => .truncated
  | .plain, c :: rest, acc =>
    if c.toNat = 34 then .ok acc.reverse rest
    else if c.toNat = 92 then scanString .esc rest acc
    else if c.toNat < 32 then .bad "in string literal"
    else scanString .plain rest (.char c :: acc)
  | .esc, c :: rest, acc =>
    if c.toNat = 117 then scanString (.hex 0 0) rest acc
    else match unescape c with
      | some e => scanString .plain rest (.char e :: acc)
      | none => .bad "in string escape code"
  | .hex seen n, c :: rest, acc =>
    match hexVal c with
    | none => .bad "in \\u hexadecimal character escape"
    | some d =>
      if seen < 3 then scanString (.hex (seen + 1) (16 * n + d)) rest acc
      else scanString .plain rest (.unit (16 * n + d) :: acc)

/-- Turns the items of a literal into text (`unquote`): a code unit that is a
surrogate pairs with an immediately following low surrogate escape, and becomes
U+FFFD otherwise. -/
def decodeItems : List StrItem → List Char
  | [] => []
  | .char c :: rest => c :: decodeItems rest
  | [.unit n] => (if 0xD800 ≤ n ∧ n < 0xE000 then Char.ofNat 0xFFFD else Char.ofNat n) :: []
  | .unit n :: .char c :: rest =>
    (if 0xD800 ≤ n ∧ n < 0xE000 then Char.ofNat 0xFFFD else Char.ofNat n) :: c :: decodeItems rest
  | .unit n :: .unit m :: rest =>
    if 0xD800 ≤ n ∧ n < 0xE000 then
      if n < 0xDC00 ∧ 0xDC00 ≤ m ∧ m < 0xE000 then
        Char.ofNat ((n - 0xD800) * 1024 + (m - 0xDC00) + 0x10000) :: decodeItems rest
      else Char.ofNat 0xFFFD :: decodeItems (.unit m :: rest)
    else Char.ofNat n :: decodeItems (.unit m :: rest)

/-- Position inside a number literal, after the scanner states `stateNeg`,
`state0`, `state1`, `stateDot`, `stateDot0`, `stateE`, `stateESign`, `stateE0`. -/
inductive NumState where
  | neg | zero | int | dot | frac | exp | expSign | expDigits
  deriving DecidableEq

/-- Decimal digit. -/
def isDigit (c : Char) : Bool := 48 ≤ c.toNat && c.toNat ≤ 57

/-- A number may end in this state. -/
def NumState.complete : NumState → Bool
  | .zero | .int | .frac | .expDigits => true
  | _ => false

/-- Scans a number literal; `acc` holds the characters read so far, newest
first.  A number ends before the first character that cannot continue it. -/
def scanNumber : NumState → List Char → List Char → Scan String
  | st, [], acc => if st.complete then .ok (String.mk acc.reverse) [] else .truncated
  | .neg, c :: rest, acc =>
    if c.toNat = 48 then scanNumber .zero rest (c :: acc)
    else if isDigit c then scanNumber .int rest (c :: acc)
    else .bad "in numeric literal"
  | .int, c :: rest, acc =>
    if isDigit c then scanNumber .int rest (c :: acc)
    else if c.toNat = 46 then scanNumber .dot rest (c :: acc)
    else if c.toNat = 101 ∨ c.toNat = 69 then scanNumber .exp rest (c :: acc)
    else .ok (String.mk acc.reverse) (c :: rest)
  | .zero, c :: rest, acc =>
    if c.toNat = 46 then scanNumber .dot rest (c :: acc)
    else if c.toNat = 101 ∨ c.toNat = 69 then scanNumber .exp rest (c :: acc)
    else .ok (String.mk acc.reverse) (c :: rest)
  | .dot, c :: rest, acc =>
    if isDigit c then scanNumber .frac rest (c :: acc)
    else .bad "after decimal point in numeric literal"
  | .frac, c :: rest, acc =>
    if isDigit c then scanNumber .frac rest (c :: acc)
    else if c.toNat = 101 ∨ c.toNat = 69 then scanNumber .exp rest (c :: acc)
    else .ok (String.mk acc.reverse) (c :: rest)
  | .exp, c :: rest, acc =>
    if c.toNat = 43 ∨ c.toNat = 45 then scanNumber .expSign rest (c :: acc)
    else if isDigit c then scanNumber .expDigits rest (c :: acc)
    else .bad "in exponent of numeric literal"
  | .expSign, c :: rest, acc =>
    if isDigit c then scanNumber .expDigits rest (c :: acc)
    else .bad "in exponent of numeric literal"
  | .expDigits, c :: rest, acc =>
    if isDigit c then scanNumber .expDigits rest (c :: acc)
    else .ok (String.mk acc.reverse) (c :: rest)

/-- Scans the remaining letters of `true`, `false` or `null`; the error names
the literal and the letter that was expected. -/
def scanLiteral (name : String) : List Char → List Char → Scan Unit
  | [], rest => .ok () rest
  | _ :: _, [] => .truncated
  | e :: es, c :: rest =>
    if c = e then scanLiteral name es rest
    else
      .bad ("in literal " ++ name ++ " (expecting " ++
        String.mk [Char.ofNat 39, e, Char.ofNat 39] ++ ")")

/-- The scanner refuses more than this many open arrays and objects
(`maxNestingDepth`). -/
def maxNestingDepth : Nat := 10000

/-- What the scanner expects next: a value; inside an object, a key with its
value; after an object member, `,` or `}`; after an array element, `,` or `]`. -/
inductive Expect where
  | value
  | key (acc : List (String × JValue))
  | afterMember (acc : List (String × JValue))
  | afterElem (acc : List JValue)

/-- Reads one JSON value from the front of the input.  `depth` counts the open
arrays and objects; the first argument bounds the recursion. -/
def parse : Nat → Nat → Expect → List Char → Scan JValue
  | 0, _, _, _ => .exhausted
  | fuel + 1, depth, .value, cs =>
    match skipSpace cs with
    | [] => .truncated
    | c :: rest =>
      if c.toNat = 123 then
        if maxNestingDepth ≤ depth then .bad "exceeded max depth"
        else match skipSpace rest with
          | [] => .truncated
          | c1 :: r1 =>
            if c1.toNat = 125 then .ok (.object []) r1
            else parse fuel (depth + 1) (.key []) (c1 :: r1)
      else if c.toNat = 91 then
        if maxNestingDepth ≤ depth then .bad "exceeded max depth"
        else match skipSpace rest with
          | [] => .truncated
          | c1 :: r1 =>
            if c1.toNat = 93 then .ok (.array []) r1
            else match parse fuel (depth + 1) .value (c1 :: r1) with
              | .ok v r2 => parse fuel (depth + 1) (.afterElem [v]) r2
              | .bad ctx => .bad ctx
              | .truncated => .truncated
              | .exhausted => .exhausted
      else if c.toNat = 34 then
        match scanString .plain rest [] with
        | .ok items r1 => .ok (.string (String.mk (decodeItems items))) r1
        | .bad ctx => .bad ctx
        | .truncated => .truncated
        | .exhausted => .exhausted
      else if c.toNat = 45 then
        match scanNumber .neg rest [c] with
        | .ok lit r1 => .ok (.number lit) r1
        | .bad ctx => .bad ctx
        | .truncated => .truncated
        | .exhausted => .exhausted
      else if c.toNat = 48 then
        match scanNumber .zero rest [c] with
        | .ok lit r1 => .ok (.number lit) r1
        | .bad ctx => .bad ctx
        | .truncated => .truncated
        | .exhausted => .exhausted
      else if isDigit c then
        match scanNumber .int rest [c] with
        | .ok lit r1 => .ok (.number lit) r1
        | .bad ctx => .bad ctx
        | .truncated => .truncated
        | .exhausted => .exhausted
      else if c.toNat = 116 then
        match scanLiteral "true" "rue".data rest with
        | .ok _ r1 => .ok (.bool true) r1
        | .bad ctx => .bad ctx
        | .truncated => .truncated
        | .exhausted => .exhausted
      else if c.toNat = 102 then
        match scanLiteral "false" "alse".data rest with
        | .ok _ r1 => .ok (.bool false) r1
        | .bad ctx => .bad ctx
        | .truncated => .truncated
        | .exhausted => .exhausted
      else if c.toNat = 110 then
        match scanLiteral "null" "ull".data rest with
        | .ok _ r1 => .ok .null r1
        | .bad ctx => .bad ctx
        | .truncated => .truncated
        | .exhausted => .exhausted
      else .bad "looking for beginning of value"
  | fuel + 1, depth, .key acc, cs =>
    match skipSpace cs with
    | [] => .truncated
    | c :: rest =>
      if c.toNat ≠ 34 then .bad "looking for beginning of object key string"
      else match scanString .plain rest [] with
        | .bad ctx => .bad ctx
        | .truncated => .truncated
        | .exhausted => .exhausted
        | .ok items r1 =>
          match skipSpace r1 with
          | [] => .truncated
          | c1 :: r2 =>
            if c1.toNat ≠ 58 then .bad "after object key"
            else match parse fuel depth .value r2 with
              | .ok v r3 =>
                parse fuel depth (.afterMember (acc ++ [(String.mk (decodeItems items), v)])) r3
              | .bad ctx => .bad ctx
              | .truncated => .truncated
              | .exhausted => .exhausted
  | fuel + 1, depth, .afterMember acc, cs =>
    match skipSpace cs with
    | [] => .truncated
    | c :: rest =>
      if c.toNat = 44 then parse fuel depth (.key acc) rest
      else if c.toNat = 125 then .ok (.object acc) rest
      else .bad "after object key:value pair"
  | fuel + 1, depth, .afterElem acc, cs =>
    match skipSpace cs with
    | [] => .truncated
    | c :: rest =>
      if c.toNat = 44 then
        match parse fuel depth .value rest with
        | .ok v r1 => parse fuel depth (.afterElem (acc ++ [v])) r1
        | .bad ctx => .bad ctx
        | .truncated => .truncated
        | .exhausted => .exhausted
      else if c.toNat = 93 then .ok (.array acc) rest
      else .bad "after array element"

/-! ## Errors and the decoder -/

/-- The error `*json.UnmarshalTypeError`: the kind of JSON value that does not
fit, and the struct field it was meant for (empty at the top level). -/
structure TypeError where
  value : String
  field : String
  deriving DecidableEq

/-- Error values that `request` can hand back: the one it creates itself with
`errors.New`, and those of the libraries it calls (`io.EOF`,
`io.ErrUnexpectedEOF`, `*json.SyntaxError` and `*json.UnmarshalTypeError` come
from the decoder). -/
inductive Error where
  | new (msg : String)
  | marshal (msg : String)
  | newRequest (msg : String)
  | transport (msg : String)
  | eof
  | unexpectedEOF
  | jsonSyntax (context : String)
  | unmarshalType (e : TypeError)
  deriving DecidableEq

/-- The first JSON value of a stream as the decoder scans it (`readValue`);
`none` when the stream holds nothing but whitespace. -/
def firstValue (body : String) : Option (Scan JValue) :=
  match skipSpace body.data with
  | [] => none
  | c :: cs => some (parse (cs.length + 2) 0 .value (c :: cs))

/-- The call `json.NewDecoder(body).Decode(&dest)` on a fresh decoder: reads the
first JSON value of the stream and stores it in the destination with `assign`
(the reflection step, which depends on the Go type of the destination and may
store part of the value before it reports a type error).  A stream holding
nothing but whitespace gives `io.EOF`; a stream that ends inside the first value
gives `io.ErrUnexpectedEOF`; what follows the first value is not looked at.  The
last case never arises (`firstValue_ne_exhausted`). -/
def decode {D : Type} (assign : JValue → D → D × Option TypeError) (body : String) (dest : D) :
    D × Option Error :=
  match firstValue body with
  | none => (dest, some .eof)
  | some (.ok v _) =>
    match assign v dest with
    | (d1, none) => (d1, none)
    | (d1, some e) => (d1, some (.unmarshalType e))
  | some (.bad ctx) => (dest, some (.jsonSyntax ctx))
  | some .truncated => (dest, some .unexpectedEOF)
  | some .exhausted => (dest, some (.jsonSyntax "exceeded max depth"))

/-- Modelled from the spec: the resource payloads ("plain data records") of
package `model`, whose declarations are not part of the source tree.  A record is
a struct of string fields, each listed with its JSON name and its value. -/
abbrev Record := List (String × String)

/-- The number of fields that carry a JSON name. -/
def fieldCount {α : Type} (fs : List (String × α)) (name : String) : Nat :=
  (fs.filter fun f => f.1 = name).length

/-- The field a JSON key is stored in.  A name carried by two fields names
neither of them; among the others the key picks the field of exactly that name,
and failing that the first field whose name is equal to the key up to case
folding (`fold` is the folding of `encoding/json`). -/
def findField {α : Type} (fold : String → String) (fs : List (String × α)) (key : String) :
    Option String :=
  match fs.find? fun f => f.1 = key ∧ fieldCount fs f.1 = 1 with
  | some f => some f.1
  | none => (fs.find? fun f => fold f.1 = fold key ∧ fieldCount fs f.1 = 1).map Prod.fst

/-- The value of the field called `name`. -/
def getField {α : Type} (fs : List (String × α)) (name : String) : Option α :=
  (fs.find? fun f => f.1 = name).map Prod.snd

/-- Sets the field called `name`. -/
def setField {α : Type} (name : String) (value : α) (fs : List (String × α)) :
    List (String × α) :=
  fs.map fun f => if f.1 = name then (f.1, value) else f

/-- The decoder keeps the first type error it meets (`saveError`). -/
def saveError (saved : Option TypeError) (e : TypeError) : Option TypeError :=
  match saved with
  | none => some e
  | some s => some s

/-- Stores one member of a JSON object in a struct of string fields: an unknown
key is skipped, `null` leaves the field alone, a string is stored, and any other
value is a type error, after which the decoder carries on. -/
def storeMember (fold : String → String) (st : Record × Option TypeError)
    (m : String × JValue) : Record × Option TypeError :=
  match findField fold st.1 m.1 with
  | none => st
  | some name =>
    match m.2 with
    | .string s => (setField name s st.1, st.2)
    | .null => st
    | .bool _ => (st.1, saveError st.2 ⟨"bool", name⟩)
    | .number _ => (st.1, saveError st.2 ⟨"number", name⟩)
    | .array _ => (st.1, saveError st.2 ⟨"array", name⟩)
    | .object _ => (st.1, saveError st.2 ⟨"object", name⟩)

/-- Stores a JSON value in a struct of string fields, the way `encoding/json`
does through a pointer to the struct. -/
def assignRecord (fold : String → String) (v : JValue) (r : Record) :
    Record × Option TypeError :=
  match v with
  | .null => (r, none)
  | .object members => members.foldl (storeMember fold) (r, none)
  | .bool _ => (r, some ⟨"bool", ""⟩)
  | .number _ => (r, some ⟨"number", ""⟩)
  | .string _ => (r, some ⟨"string", ""⟩)
  | .array _ => (r, some ⟨"array", ""⟩)

/-! ## HTTP requests and responses -/

/-- Bytes allowed in a header field name (`validHeaderFieldByte`): letters,
digits and the token punctuation of RFC 7230. -/
def validHeaderFieldByte (c : Char) : Bool :=
  (48 ≤ c.toNat && c.toNat ≤ 57) || (65 ≤ c.toNat && c.toNat ≤ 90) ||
  (97 ≤ c.toNat && c.toNat ≤ 122) ||
  [33, 35, 36, 37, 38, 39, 42, 43, 45, 46, 94, 95, 96, 124, 126].contains c.toNat

/-- Upper case at the start and after a dash, lower case elsewhere. -/
def canonicalize : Bool → List Char → List Char
  | _, [] => []
  | upper, c :: cs =>
    let c1 :=
      if upper && (97 ≤ c.toNat && c.toNat ≤ 122) then Char.ofNat (c.toNat - 32)
      else if !upper && (65 ≤ c.toNat && c.toNat ≤ 90) then Char.ofNat (c.toNat + 32)
      else c
    c1 :: canonicalize (c1.toNat = 45) cs

/-- The function `textproto.CanonicalMIMEHeaderKey`: a key with a byte that is
not allowed in a field name is left as it is. -/
def canonicalMIMEHeaderKey (s : String) : String :=
  if s.data.all validHeaderFieldByte then String.mk (canonicalize true s.data) else s

/-- The type `http.Header`: canonical keys with their values. -/
abbrev Header := List (String × List String)

/-- The method `Header.Set`: replaces the values of the key. -/
def Header.set (h : Header) (key value : String) : Header :=
  if h.any (fun e => e.1 = canonicalMIMEHeaderKey key) then
    h.map fun e => if e.1 = canonicalMIMEHeaderKey key then (e.1, [value]) else e
  else h ++ [(canonicalMIMEHeaderKey key, [value])]

/-- The method `Header.Get`: first value of the key, or the empty string. -/
def Header.get (h : Header) (key : String) : String :=
  match h.find? fun e => e.1 = canonicalMIMEHeaderKey key with
  | some (_, v :: _) => v
  | _ => ""

/-- An outgoing request: method, the URL string given to `http.NewRequest`,
header and body. -/
structure Request where
  method : String
  url : String
  header : Header
  body : String
  deriving DecidableEq

/-- A response as `request` sees it: status code, the bytes of the body, and the
error `Body.Close` returns, if any. -/
structure Response where
  statusCode : Int
  body : String
  closeErr : Option String
  deriving DecidableEq

/-- What lies outside the program: the JSON encoder applied to a payload of
type `P` (the text written, or the encoder's error), the checks of
`http.NewRequest` on method and URL (the error, if it refuses them), and the
exchange done by `http.DefaultClient.Do`. -/
structure World (P : Type) where
  marshal : P → Except String String
  rejectRequest : String → String → Option String
  roundTrip : Request → Except String Response

/-- Calls into the libraries, in the order `request` makes them: the JSON
encoder, `http.NewRequest`, `httpClient.Do`, `log.Printf` and `log.Println`, the
JSON decoder, `Body.Close`, and `log.Fatal`. -/
inductive Event where
  | encode
  | newRequest (method url : String)
  | send (req : Request)
  | log (line : String)
  | logStatus (statusCode : Int)
  | decode
  | close
  | fatal (msg : String)
  deriving DecidableEq

/-- How a call ends: it returns an error value (or nil) to its caller, or the
process exits (`log.Fatal` prints and calls `os.Exit(1)`, which runs no deferred
function). -/
inductive Outcome where
  | returned (err : Option Error)
  | exited (status : Nat)
  deriving DecidableEq

/-- A finished call: how it ended, the caller's destination afterwards, and the
library calls made. -/
structure Run (D : Type) where
  outcome : Outcome
  dest : Option D
  trace : List Event
  deriving DecidableEq

/-- The requests handed to the HTTP client in a trace. -/
def sentRequests : List Event → List Request
  | [] => []
  | .send req :: es => req :: sentRequests es
  | _ :: es => sentRequests es

/-! ## The client -/

/-- The constant `DefaultBaseUri`. -/
def DefaultBaseUri : String := "https://vault.previder.io"

/-- The constant `jsonEncoding`. -/
def jsonEncoding : String := "application/json; charset=utf-8"

/-- The struct `VaultClient`; the embedded interface and the `http` field are
never assigned and never read. -/
structure VaultClient where
  baseUri : String
  token : String
  verbose : Bool
  deriving DecidableEq

/-- The method `validateConnection`: the version request is commented out, so it
only logs when the client is verbose, and returns nil. -/
def validateConnection (v : VaultClient) : Option Error × List Event :=
  (none, if v.verbose then [.log ("Setup new Vault client [test] to " ++ v.baseUri)] else [])

/-- The constructor `NewVaultClient`: the client (nil on error), the error, and
the log lines written. -/
def NewVaultClient (baseUri token : String) : Option VaultClient × Option Error × List Event :=
  let vaultClient : VaultClient :=
    { baseUri := if baseUri = "" then DefaultBaseUri else baseUri, token := token,
      verbose := false }
  match validateConnection vaultClient with
  | (some err, log) => (none, some err, log)
  | (none, log) => (some vaultClient, none, log)

/-- The method `SetVerbose`. -/
def SetVerbose (v : VaultClient) (verbose : Bool) : VaultClient :=
  { v with verbose := verbose }

/-- The call `json.NewEncoder(b).Encode(requestBody)`, which runs for every
method: a nil payload is written as `null` and a newline, so that the content of
a GET is those five characters (the comment above the call in the source expects
it to be empty). -/
def encodePayload {P : Type} (W : World P) : Option P → Except String String
  | none => .ok "null\n"
  | some p => W.marshal p

/-- The call `http.NewRequest(method, url, body)`: an empty method means GET; the
request starts with an empty header. -/
def newRequest {P : Type} (W : World P) (method url body : String) : Except Error Request :=
  match W.rejectRequest (if method = "" then "GET" else method) url with
  | some e => .error (.newRequest e)
  | none =>
    .ok { method := if method = "" then "GET" else method, url := url, header := [],
          body := body }

/-- Lines 85 to 98 of `request`: the payload is encoded, the request is created
for the base URI followed by the path, and the three headers are set.  Gives the
request that goes to the HTTP client, or the error `request` returns, with the
library calls made. -/
def prepare {P : Type} (W : World P) (c : VaultClient) (method url : String)
    (requestBody : Option P) : Except Error Request × List Event :=
  match encodePayload W requestBody with
  | .error e => (.error (.marshal e), [.encode])
  | .ok b =>
    match newRequest W method (c.baseUri ++ url) b with
    | .error e => (.error e, [.encode, .newRequest method (c.baseUri ++ url)])
    | .ok req =>
      (.ok { req with header :=
              ((Header.set req.header "Content-Type" jsonEncoding).set "X-API-Key"
                c.token).set "Accept" jsonEncoding },
        [.encode, .newRequest method (c.baseUri ++ url)])

/-- The deferred function of `request`: closes the body, and ends the process if
closing fails. -/
def closeBody {D : Type} (res : Response) (r : Run D) : Run D :=
  match res.closeErr with
  | none => { r with trace := r.trace ++ [.close] }
  | some e => { outcome := .exited 1, dest := r.dest, trace := r.trace ++ [.close, .fatal e] }

/-- Lines 121 to 131 of `request`, followed by the deferred close: with a
destination the body is decoded into it, end of stream counting as success;
without one the body is not read. -/
def readBody {D : Type} (assign : JValue → D → D × Option TypeError) (res : Response)
    (responseBody : Option D) (trace : List Event) : Run D :=
  match responseBody with
  | none => closeBody res ⟨.returned none, none, trace⟩
  | some d =>
    match decode assign res.body d with
    | (d1, some err) =>
      if err = .eof then closeBody res ⟨.returned none, some d1, trace ++ [.decode]⟩
      else closeBody res ⟨.returned (some err), some d1, trace ++ [.decode]⟩
    | (d1, none) => closeBody res ⟨.returned none, some d1, trace ++ [.decode]⟩

/-- The method `VaultClient.request`.  The receiver may be nil (`none`); the
payload may be nil; `responseBody` is nil or holds a pointer to the caller's
destination, whose Go type is described by `assign` (the decoder is handed the
address of the interface variable and follows the pointer held in it, so what it
stores lands in the caller's destination). -/
def request {P D : Type} (W : World P) (assign : JValue → D → D × Option TypeError)
    (v : Option VaultClient) (method url : String) (requestBody : Option P)
    (responseBody : Option D) : Run D :=
  match v with
  | none => ⟨.returned (some (.new "Previder vault client not setup")), responseBody, []⟩
  | some c =>
    if c.baseUri = "" then
      ⟨.returned (some (.new "Previder vault client not setup")), responseBody, []⟩
    else
      match prepare W c method url requestBody with
      | (.error e, calls) => ⟨.returned (some e), responseBody, calls⟩
      | (.ok req, calls) =>
        match W.roundTrip req with
        | .error e =>
          ⟨.returned (some (.transport e)), responseBody,
            calls ++ [.send req, .log "[ERROR] [Previder Vault] Error from API received"]⟩
        | .ok res =>
          if res.statusCode < 200 ∨ res.statusCode ≥ 300 then
            if res.statusCode = 401 then
              ⟨.exited 1, responseBody, calls ++ [.send req, .fatal "Unauthorized"]⟩
            else
              readBody assign res responseBody
                (calls ++ [.send req, .logStatus res.statusCode])
          else readBody assign res responseBody (calls ++ [.send req])

/-! ## A compact encoder for the sample worlds -/

/-- Lower-case hexadecimal digit. -/
def hexDigit (n : Nat) : Char :=
  if n < 10 then Char.ofNat (48 + n) else Char.ofNat (87 + n)

/-- A character inside a JSON string literal: the quote and the backslash are
written with a backslash, control characters as `\u00XX`, the rest as they are. -/
def escapeChar (c : Char) : List Char :=
  if c.toNat = 34 ∨ c.toNat = 92 then [Char.ofNat 92, c]
  else if c.toNat < 32 then
    [Char.ofNat 92, Char.ofNat 117, Char.ofNat 48, Char.ofNat 48, hexDigit (c.toNat / 16),
      hexDigit (c.toNat % 16)]
  else [c]

/-- Body of a string literal. -/
def escapeChars : List Char → List Char
  | [] => []
  | c :: cs => escapeChar c ++ escapeChars cs

/-- A JSON string literal. -/
def quoteString (s : String) : List Char :=
  Char.ofNat 34 :: (escapeChars s.data ++ [Char.ofNat 34])

/-- The members of a JSON object, separated by commas. -/
def encodeMembers : Record → List Char
  | [] => []
  | [f] => quoteString f.1 ++ Char.ofNat 58 :: quoteString f.2
  | f :: g :: fs =>
    quoteString f.1 ++ Char.ofNat 58 :: (quoteString f.2 ++ Char.ofNat 44 :: encodeMembers (g :: fs))

/-- The compact JSON object of a struct of string fields: the fields in order,
each value a string literal, no whitespace.  The sample worlds write payloads
with it (followed by a line feed); it is one way of writing a record, and what a
server may answer with is given by `Encodes`. -/
def encodeRecord (r : Record) : String :=
  String.mk (Char.ofNat 123 :: (encodeMembers r ++ [Char.ofNat 125]))

/-! ## Notions used in the statements -/

/-- The transport succeeds with response `res`: `Do` returns `res` for the
request, and closing the body of `res`, which releases the connection, raises
no error. -/
def World.Succeeds {P : Type} (W : World P) (req : Request) (res : Response) : Prop :=
  W.roundTrip req = .ok res ∧ res.closeErr = none

/-- The world `W` with the server's answer replaced by `res`. -/
def World.answeredBy {P : Type} (W : World P) (res : Response) : World P :=
  { W with roundTrip := fun _ => .ok res }

/-- The error the decoder reports when the scan of the first value fails: a
syntax error, or an unexpected end of the input. -/
def scanError : Scan JValue → Option Error
  | .bad ctx => some (.jsonSyntax ctx)
  | .truncated => some .unexpectedEOF
  | _ => none

/-- A scan that stayed within its recursion budget and, when it found a value,
left fewer than `bound` characters unread. -/
def Scan.Good {α : Type} (bound : Nat) : Scan α → Prop
  | .ok _ rest => rest.length < bound
  | .exhausted => False
  | _ => True

/-- The item the scanner reads back for a character written by `escapeChar`. -/
def itemOf (c : Char) : StrItem :=
  if c.toNat < 32 then .unit c.toNat else .char c

/-- The JSON member a field is read back as. -/
def toMember (f : String × String) : String × JValue := (f.1, .string f.2)

/-! ## JSON texts

What it means for a text to be JSON for a value, written after RFC 8259 and
without reference to the scanner above: whitespace may stand around every token,
and a character of a string may be written as itself, with a two-character
escape, as `\uXXXX` in either case of the hexadecimal digits, or, above U+FFFF,
as a pair of surrogate escapes. -/

/-- Insignificant whitespace: spaces, tabs, line feeds and carriage returns. -/
def Blank (w : List Char) : Prop :=
  ∀ c ∈ w, c.toNat = 32 ∨ c.toNat = 9 ∨ c.toNat = 10 ∨ c.toNat = 13

/-- The character `c` is the hexadecimal digit of value `n`, in lower or in upper
case. -/
def HexDigit (c : Char) (n : Nat) : Prop :=
  "0123456789abcdef".data[n]? = some c ∨ "0123456789ABCDEF".data[n]? = some c

/-- Four hexadecimal digits that write the number `n`. -/
def Hex4 (a b c d : Char) (n : Nat) : Prop :=
  ∃ x1 x2 x3 x4, HexDigit a x1 ∧ HexDigit b x2 ∧ HexDigit c x3 ∧ HexDigit d x4 ∧
    n = 4096 * x1 + 256 * x2 + 16 * x3 + x4

/-- The two-character escapes: the letter after the backslash and the character
it stands for: the quote, the backslash and the slash for themselves, `b`
backspace, `f` form feed, `n` line feed, `r` carriage return, `t` tab. -/
def Escape (e c : Char) : Prop :=
  (e.toNat, c.toNat) ∈
    [(34, 34), (92, 92), (47, 47), (98, 8), (102, 12), (110, 10), (114, 13), (116, 9)]

/-- The text between the quotes of a string literal, for a list of characters. -/
inductive StringText : List Char → List Char → Prop where
  | nil : StringText [] []
  | raw (c : Char) (s t : List Char) :
      32 ≤ c.toNat → c.toNat ≠ 34 → c.toNat ≠ 92 → StringText s t →
      StringText (c :: s) (c :: t)
  | escape (e c : Char) (s t : List Char) :
      Escape e c → StringText s t → StringText (c :: s) (Char.ofNat 92 :: e :: t)
  | unicode (a b x d c : Char) (s t : List Char) :
      Hex4 a b x d c.toNat → StringText s t →
      StringText (c :: s) (Char.ofNat 92 :: Char.ofNat 117 :: a :: b :: x :: d :: t)
  | pair (a b x d a2 b2 x2 d2 c : Char) (s t : List Char) :
      65536 ≤ c.toNat →
      Hex4 a b x d (55296 + (c.toNat - 65536) / 1024) →
      Hex4 a2 b2 x2 d2 (56320 + (c.toNat - 65536) % 1024) →
      StringText s t →
      StringText (c :: s)
        (Char.ofNat 92 :: Char.ofNat 117 :: a :: b :: x :: d ::
          Char.ofNat 92 :: Char.ofNat 117 :: a2 :: b2 :: x2 :: d2 :: t)

/-- Decimal digits. -/
def Digits (ds : List Char) : Prop := ∀ c ∈ ds, 48 ≤ c.toNat ∧ c.toNat ≤ 57

/-- The integer part of a number text: `0`, or digits that do not start with
`0`. -/
def IntText (int : List Char) : Prop :=
  int = [Char.ofNat 48] ∨ ∃ d ds, int = d :: ds ∧ 49 ≤ d.toNat ∧ d.toNat ≤ 57 ∧ Digits ds

/-- The optional fraction of a number text: a point and at least one digit. -/
def FracText (frac : List Char) : Prop :=
  frac = [] ∨ ∃ d ds, frac = Char.ofNat 46 :: d :: ds ∧ Digits (d :: ds)

/-- The optional exponent of a number text: `e` or `E`, an optional sign, and at
least one digit. -/
def ExpText (exp : List Char) : Prop :=
  exp = [] ∨
    ∃ e sg d ds, exp = e :: (sg ++ d :: ds) ∧ (e.toNat = 101 ∨ e.toNat = 69) ∧
      (sg = [] ∨ sg = [Char.ofNat 43] ∨ sg = [Char.ofNat 45]) ∧ Digits (d :: ds)

/-- The text of a JSON number: an optional minus sign, an integer part, an
optional fraction, an optional exponent. -/
def NumberText (t : List Char) : Prop :=
  ∃ sign int frac exp : List Char, t = sign ++ (int ++ (frac ++ exp)) ∧
    (sign = [] ∨ sign = [Char.ofNat 45]) ∧ IntText int ∧ FracText frac ∧ ExpText exp

/-- What a piece of JSON text stands for: a value, the elements of an array (at
least one), or the members of an object (at least one). -/
inductive JNode where
  | value (j : JValue)
  | elems (js : List JValue)
  | members (ms : List (String × JValue))

/-- The text `t` is JSON for the node, with arrays and objects nested `h` deep.
The text of a value starts and ends with its own characters; the text of
elements and members includes the whitespace around them. -/
inductive JsonText : JNode → Nat → List Char → Prop where
  | null : JsonText (.value .null) 0 [Char.ofNat 110, Char.ofNat 117, Char.ofNat 108, Char.ofNat 108]
  | true :
      JsonText (.value (.bool true)) 0 [Char.ofNat 116, Char.ofNat 114, Char.ofNat 117, Char.ofNat 101]
  | false :
      JsonText (.value (.bool false)) 0
        [Char.ofNat 102, Char.ofNat 97, Char.ofNat 108, Char.ofNat 115, Char.ofNat 101]
  | number (t : List Char) : NumberText t → JsonText (.value (.number (String.mk t))) 0 t
  | string (s t : List Char) :
      StringText s t →
      JsonText (.value (.string (String.mk s))) 0 (Char.ofNat 34 :: (t ++ [Char.ofNat 34]))
  | emptyArray (w : List Char) :
      Blank w → JsonText (.value (.array [])) 1 (Char.ofNat 91 :: (w ++ [Char.ofNat 93]))
  | array (js : List JValue) (h : Nat) (t : List Char) :
      JsonText (.elems js) h t →
      JsonText (.value (.array js)) (h + 1) (Char.ofNat 91 :: (t ++ [Char.ofNat 93]))
  | emptyObject (w : List Char) :
      Blank w → JsonText (.value (.object [])) 1 (Char.ofNat 123 :: (w ++ [Char.ofNat 125]))
  | object (ms : List (String × JValue)) (h : Nat) (t : List Char) :
      JsonText (.members ms) h t →
      JsonText (.value (.object ms)) (h + 1) (Char.ofNat 123 :: (t ++ [Char.ofNat 125]))
  | lastElem (j : JValue) (h : Nat) (w1 t w2 : List Char) :
      Blank w1 → JsonText (.value j) h t → Blank w2 → JsonText (.elems [j]) h (w1 ++ (t ++ w2))
  | elem (j : JValue) (js : List JValue) (h1 h2 : Nat) (w1 t w2 t2 : List Char) :
      Blank w1 → JsonText (.value j) h1 t → Blank w2 → JsonText (.elems js) h2 t2 →
      JsonText (.elems (j :: js)) (max h1 h2) (w1 ++ (t ++ (w2 ++ Char.ofNat 44 :: t2)))
  | lastMember (k : List Char) (j : JValue) (h : Nat) (w1 kt w2 w3 t w4 : List Char) :
      Blank w1 → StringText k kt → Blank w2 → Blank w3 → JsonText (.value j) h t → Blank w4 →
      JsonText (.members [(String.mk k, j)]) h
        (w1 ++ (Char.ofNat 34 :: (kt ++ Char.ofNat 34 ::
          (w2 ++ Char.ofNat 58 :: (w3 ++ (t ++ w4))))))
  | member (k : List Char) (j : JValue) (ms : List (String × JValue)) (h1 h2 : Nat)
      (w1 kt w2 w3 t w4 t2 : List Char) :
      Blank w1 → StringText k kt → Blank w2 → Blank w3 → JsonText (.value j) h1 t → Blank w4 →
      JsonText (.members ms) h2 t2 →
      JsonText (.members ((String.mk k, j) :: ms)) (max h1 h2)
        (w1 ++ (Char.ofNat 34 :: (kt ++ Char.ofNat 34 ::
          (w2 ++ Char.ofNat 58 :: (w3 ++ (t ++ (w4 ++ Char.ofNat 44 :: t2)))))))

/-- Input after a value that cannot be taken for more of a number. -/
def Terminated (rest : List Char) : Prop :=
  ∀ c r, rest = c :: r →
    ¬ (48 ≤ c.toNat ∧ c.toNat ≤ 57) ∧ c.toNat ≠ 46 ∧ c.toNat ≠ 101 ∧ c.toNat ≠ 69 ∧
      c.toNat ≠ 43 ∧ c.toNat ≠ 45

/-- The scanner reads the text of a node: a value is found with the rest of the
input left over; the elements of an array are read up to the closing bracket,
the members of an object up to the closing brace. -/
def Reads : JNode → Nat → List Char → Prop
  | .value j, h, t =>
    ∀ fuel depth rest, (t ++ rest).length < fuel → depth + h ≤ maxNestingDepth →
      Terminated rest → parse fuel depth .value (t ++ rest) = .ok j rest
  | .elems js, h, t =>
    ∀ fuel depth acc rest, (t ++ Char.ofNat 93 :: rest).length < fuel →
      depth + h ≤ maxNestingDepth →
      ∃ j0 r0, parse fuel depth .value (t ++ Char.ofNat 93 :: rest) = .ok j0 r0 ∧
        parse fuel depth (.afterElem (acc ++ [j0])) r0 = .ok (.array (acc ++ js)) rest
  | .members ms, h, t =>
    ∀ fuel depth acc rest, (t ++ Char.ofNat 125 :: rest).length < fuel →
      depth + h ≤ maxNestingDepth →
      parse fuel depth (.key acc) (t ++ Char.ofNat 125 :: rest) = .ok (.object (acc ++ ms)) rest

/-! ## Destinations: plain data records

The types of package `model` are not in the source tree.  The destinations
covered are the Go values built from strings, booleans, integers, structs and
slices, nested to any depth.  The destination of `request` is the variable of
the caller that the argument `responseBody` points to (a struct for one
resource, a slice of structs for a listing). -/

/-- Modelled from the spec: the types of the "plain data records" of package
`model`, whose declarations are not part of the source tree: `string`, `bool`,
`int`, a struct given by the JSON names and types of its fields, a slice. -/
inductive GoType where
  | string
  | bool
  | int
  | struct (fields : List (String × GoType))
  | slice (elem : GoType)

/-- Modelled from the spec: the values of the "plain data records" of package
`model`, whose declarations are not part of the source tree; a slice carries the
type of its elements. -/
inductive GoValue where
  | str (s : String)
  | bool (b : Bool)
  | int (i : Int)
  | struct (fields : List (String × GoValue))
  | slice (elem : GoType) (elems : List GoValue)

mutual
/-- The type of a value. -/
def typeOf : GoValue → GoType
  | .str _ => .string
  | .bool _ => .bool
  | .int _ => .int
  | .struct fs => .struct (typeOfFields fs)
  | .slice t _ => .slice t
/-- The names and types of the fields of a struct. -/
def typeOfFields : List (String × GoValue) → List (String × GoType)
  | [] => []
  | (k, v) :: fs => (k, typeOf v) :: typeOfFields fs
end

mutual
/-- The zero value of a type. -/
def zeroOf : GoType → GoValue
  | .string => .str ""
  | .bool => .bool false
  | .int => .int 0
  | .struct fs => .struct (zeroFields fs)
  | .slice t => .slice t []
/-- The fields of the zero value of a struct type. -/
def zeroFields : List (String × GoType) → List (String × GoValue)
  | [] => []
  | (k, t) :: fs => (k, zeroOf t) :: zeroFields fs
end

mutual
/-- A value Go can hold: integers fit in 64 bits, the fields of a struct have
distinct JSON names, the elements of a slice have its element type. -/
def wellFormed : GoValue → Prop
  | .str _ => True
  | .bool _ => True
  | .int i => -9223372036854775808 ≤ i ∧ i ≤ 9223372036854775807
  | .struct fs => (fs.map Prod.fst).Nodup ∧ wellFormedFields fs
  | .slice t es => wellFormedElems t es
/-- Every field holds a well-formed value. -/
def wellFormedFields : List (String × GoValue) → Prop
  | [] => True
  | (_, v) :: fs => wellFormed v ∧ wellFormedFields fs
/-- Every element is a well-formed value of the element type. -/
def wellFormedElems : GoType → List GoValue → Prop
  | _, [] => True
  | t, v :: vs => typeOf v = t ∧ wellFormed v ∧ wellFormedElems t vs
end

/-- The first of two errors. -/
def firstError (a b : Option TypeError) : Option TypeError :=
  match a with
  | some e => some e
  | none => b

/-- The function `strconv.ParseInt(lit, 10, 64)` on a number literal: an optional
minus sign and decimal digits, within the range of 64 bits. -/
def parseInt (lit : String) : Option Int :=
  match lit.data with
  | [] => none
  | c :: cs =>
    if c.toNat = 45 then
      if cs = [] ∨ cs.all isDigit = false then none
      else if cs.foldl (fun n d => 10 * n + (d.toNat - 48)) 0 ≤ 9223372036854775808 then
        some (-((cs.foldl (fun n d => 10 * n + (d.toNat - 48)) 0 : Nat) : Int))
      else none
    else
      if (c :: cs).all isDigit = false then none
      else if (c :: cs).foldl (fun n d => 10 * n + (d.toNat - 48)) 0 ≤ 9223372036854775807 then
        some (((c :: cs).foldl (fun n d => 10 * n + (d.toNat - 48)) 0 : Nat) : Int)
      else none

/-- The field path of a type error: the JSON names from the root, joined by
dots. -/
def pathString (path : List String) : String := ".".intercalate path

mutual
/-- Stores a JSON value in a Go value, the way `encoding/json` does through a
pointer to it: a value of the wrong kind is a type error and leaves the
destination alone; `null` empties a slice and leaves everything else alone; the
decoder keeps the first type error and carries on. -/
def assignValue (fold : String → String) :
    List String → JValue → GoValue → GoValue × Option TypeError
  | _, .null, d =>
    match d with
    | .slice t _ => (.slice t [], none)
    | _ => (d, none)
  | path, .bool b, d =>
    match d with
    | .bool _ => (.bool b, none)
    | _ => (d, some ⟨"bool", pathString path⟩)
  | path, .string s, d =>
    match d with
    | .str _ => (.str s, none)
    | _ => (d, some ⟨"string", pathString path⟩)
  | path, .number lit, d =>
    match d with
    | .int _ =>
      match parseInt lit with
      | some i => (.int i, none)
      | none => (d, some ⟨"number " ++ lit, pathString path⟩)
    | _ => (d, some ⟨"number", pathString path⟩)
  | path, .array js, d =>
    match d with
    | .slice t ds => (.slice t (assignElems fold path js t ds).1, (assignElems fold path js t ds).2)
    | _ => (d, some ⟨"array", pathString path⟩)
  | path, .object ms, d =>
    match d with
    | .struct fs => (.struct (assignMembers fold path ms fs).1, (assignMembers fold path ms fs).2)
    | _ => (d, some ⟨"object", pathString path⟩)
/-- Stores the elements of a JSON array in a slice: element by element into the
elements the slice has, and beyond them into new elements, taken to be zero
values (a slice without spare capacity); the slice ends up as long as the
array. -/
def assignElems (fold : String → String) :
    List String → List JValue → GoType → List GoValue → List GoValue × Option TypeError
  | _, [], _, _ => ([], none)
  | path, j :: js, t, ds =>
    ((assignValue fold path j (ds.headD (zeroOf t))).1 :: (assignElems fold path js t ds.tail).1,
      firstError (assignValue fold path j (ds.headD (zeroOf t))).2
        (assignElems fold path js t ds.tail).2)
/-- Stores the members of a JSON object in the fields of a struct, in the order
of the text: a key that names no field is skipped. -/
def assignMembers (fold : String → String) :
    List String → List (String × JValue) → List (String × GoValue) →
      List (String × GoValue) × Option TypeError
  | _, [], fs => (fs, none)
  | path, (k, j) :: ms, fs =>
    match findField fold fs k with
    | none => assignMembers fold path ms fs
    | some name =>
      match getField fs name with
      | none => assignMembers fold path ms fs
      | some cur =>
        ((assignMembers fold path ms
            (setField name (assignValue fold (path ++ [name]) j cur).1 fs)).1,
          firstError (assignValue fold (path ++ [name]) j cur).2
            (assignMembers fold path ms
              (setField name (assignValue fold (path ++ [name]) j cur).1 fs)).2)
end

/-! ## JSON values for records -/

/-- The integer written by a number text without fraction and exponent. -/
def IntegerText (t : List Char) (i : Int) : Prop :=
  ∃ ds, IntText ds ∧
    ((t = ds ∧ i = ((Nat.ofDigits 10 (ds.reverse.map fun c => c.toNat - 48) : Nat) : Int)) ∨
      (t = Char.ofNat 45 :: ds ∧
        i = -((Nat.ofDigits 10 (ds.reverse.map fun c => c.toNat - 48) : Nat) : Int)))

/-- What a JSON value is compared with: a Go value, the elements of a slice, or
the fields of a struct. -/
inductive GNode where
  | value (v : GoValue)
  | elems (vs : List GoValue)
  | fields (fs : List (String × GoValue))

/-- The JSON value is the Go value: a string, a boolean or a number for a string,
a boolean or an integer; an array of the elements for a slice (`null` for an
empty one too); an object with one member for each field of a struct, in any
order. -/
inductive Denotes : JNode → GNode → Prop where
  | str (s : String) : Denotes (.value (.string s)) (.value (.str s))
  | bool (b : Bool) : Denotes (.value (.bool b)) (.value (.bool b))
  | int (t : List Char) (i : Int) :
      IntegerText t i → Denotes (.value (.number (String.mk t))) (.value (.int i))
  | null (t : GoType) : Denotes (.value .null) (.value (.slice t []))
  | slice (t : GoType) (js : List JValue) (vs : List GoValue) :
      Denotes (.elems js) (.elems vs) → Denotes (.value (.array js)) (.value (.slice t vs))
  | struct (ms : List (String × JValue)) (fs : List (String × GoValue)) :
      Denotes (.members ms) (.fields fs) → (ms.map Prod.fst).Perm (fs.map Prod.fst) →
      Denotes (.value (.object ms)) (.value (.struct fs))
  | noElems : Denotes (.elems []) (.elems [])
  | elem (j : JValue) (v : GoValue) (js : List JValue) (vs : List GoValue) :
      Denotes (.value j) (.value v) → Denotes (.elems js) (.elems vs) →
      Denotes (.elems (j :: js)) (.elems (v :: vs))
  | noMembers (fs : List (String × GoValue)) : Denotes (.members []) (.fields fs)
  | member (k : String) (j : JValue) (v : GoValue) (ms : List (String × JValue))
      (fs : List (String × GoValue)) :
      (k, v) ∈ fs → Denotes (.value j) (.value v) → Denotes (.members ms) (.fields fs) →
      Denotes (.members ((k, j) :: ms)) (.fields fs)

/-- The body is a JSON encoding of the record `r`, with arrays and objects nested
`h` deep: a JSON text for a JSON value that is `r`, with whitespace allowed
before and after it. -/
def Encodes (body : String) (r : GoValue) (h : Nat) : Prop :=
  ∃ (j : JValue) (lead t trail : List Char), body.data = lead ++ (t ++ trail) ∧
    Blank lead ∧ Blank trail ∧ JsonText (.value j) h t ∧ Denotes (.value j) (.value r)

/-- While the members of an object are stored: the fields `cur` have the names
and types of `fs`, hold well-formed values, and agree with `fs` on the names in
`done`. -/
def FieldsAgree (fs : List (String × GoValue)) (done : List String)
    (cur : List (String × GoValue)) : Prop :=
  typeOfFields cur = typeOfFields fs ∧ wellFormedFields cur ∧
    ∀ k v, k ∈ done → (k, v) ∈ fs → (k, v) ∈ cur

/-- Storing the JSON value in a destination of the same type gives the Go value
it is, and no error. -/
def Stores (fold : String → String) : JNode → GNode → Prop
  | .value j, .value v =>
    ∀ path d, wellFormed v → wellFormed d → typeOf d = typeOf v →
      assignValue fold path j d = (v, none)
  | .elems js, .elems vs =>
    ∀ path t ds, wellFormedElems t vs → wellFormedElems t ds →
      assignElems fold path js t ds = (vs, none)
  | .members ms, .fields fs =>
    ∀ path cur done, (fs.map Prod.fst).Nodup → wellFormedFields fs → FieldsAgree fs done cur →
      ∃ res, assignMembers fold path ms cur = (res, none) ∧
        FieldsAgree fs (done ++ ms.map Prod.fst) res
  | _, _ => True

/-! ## Sample data -/

/-- A world in which payload records are written by the compact encoder,
`http.NewRequest` accepts every method and URL, and the server answers every
request with `res`. -/
def answering (res : Response) : World Record :=
  { marshal := fun r => .ok (encodeRecord r ++ "\n")
    rejectRequest := fun _ _ => none
    roundTrip := fun _ => .ok res }

/-- A client as `NewVaultClient "" "s3cr3t"` builds it. -/
def sampleClient : VaultClient :=
  { baseUri := "https://vault.previder.io", token := "s3cr3t", verbose := false }

/-- The three headers `request` sets, under their canonical keys. -/
def sampleHeader : Header :=
  [("Content-Type", ["application/json; charset=utf-8"]), ("X-Api-Key", ["s3cr3t"]),
    ("Accept", ["application/json; charset=utf-8"])]

/-! ## The guard on the client -/

/-- C1: called on a nil client or on a client whose base URI is empty, `request`
returns the error "Previder vault client not setup" and calls no library at all:
the payload is not encoded and nothing is sent; the destination is untouched. -/
theorem request_not_setup {P D : Type} (W : World P)
    (assign : JValue → D → D × Option TypeError) (v : Option VaultClient)
    (hv : v = none ∨ ∃ c, v = some c ∧ c.baseUri = "") (method url : String)
    (requestBody : Option P) (responseBody : Option D) :
    request W assign v method url requestBody responseBody =
      ⟨.returned (some (.new "Previder vault client not setup")), responseBody, []⟩ := by
  rcases hv with hv | ⟨c, hv, hc⟩
  · subst hv; rfl
  · subst hv; simp [request, hc]

/-- C1 at a client with an empty base URI. -/
theorem request_not_setup_witness :
    ((some (⟨"", "s3cr3t", false⟩ : VaultClient) = none ∨
        ∃ c, some (⟨"", "s3cr3t", false⟩ : VaultClient) = some c ∧ c.baseUri = "") ∧
      request (answering ⟨200, "", none⟩) (assignRecord id) (some ⟨"", "s3cr3t", false⟩) "POST"
          "/environments" (some [("name", "dev")]) (some [("id", ""), ("name", "")]) =
        ⟨.returned (some (.new "Previder vault client not setup")),
          some [("id", ""), ("name", "")], []⟩) :=
  ⟨Or.inr ⟨_, rfl, rfl⟩,
    request_not_setup (answering ⟨200, "", none⟩) (assignRecord id) (some ⟨"", "s3cr3t", false⟩)
      (Or.inr ⟨_, rfl, rfl⟩) "POST" "/environments" (some [("name", "dev")])
      (some [("id", ""), ("name", "")])⟩

/-! ## The request that is sent -/

/-- The header after the three `Set` calls of `request`. -/
theorem three_headers (token : String) :
    ((Header.set [] "Content-Type" jsonEncoding).set "X-API-Key" token).set "Accept"
        jsonEncoding =
      [("Content-Type", [jsonEncoding]), ("X-Api-Key", [token]), ("Accept", [jsonEncoding])] := by
  rfl

/-- What a successful `prepare` has done. -/
theorem prepare_ok {P : Type} (W : World P) (c : VaultClient) (method url : String)
    (requestBody : Option P) (req : Request)
    (h : (prepare W c method url requestBody).1 = .ok req) :
    (prepare W c method url requestBody).2 =
        [.encode, .newRequest method (c.baseUri ++ url)] ∧
      ∃ b, encodePayload W requestBody = .ok b ∧
        req = ⟨if method = "" then "GET" else method, c.baseUri ++ url,
          [("Content-Type", [jsonEncoding]), ("X-Api-Key", [c.token]),
            ("Accept", [jsonEncoding])], b⟩ := by
  unfold prepare at h ⊢
  cases hb : encodePayload W requestBody with
  | error e => simp [hb] at h
  | ok b =>
    simp only [hb] at h ⊢
    unfold newRequest at h ⊢
    cases hr : W.rejectRequest (if method = "" then "GET" else method) (c.baseUri ++ url) with
    | some e => simp [hr] at h
    | none =>
      simp only [hr, three_headers] at h ⊢
      simp only [Except.ok.injEq] at h
      exact ⟨trivial, b, rfl, h.symm⟩

/-- A call on a client with a base URI, once the request is prepared. -/
theorem request_prepared {P D : Type} (W : World P)
    (assign : JValue → D → D × Option TypeError) (c : VaultClient) (hc : c.baseUri ≠ "")
    (method url : String) (requestBody : Option P) (responseBody : Option D) (req : Request)
    (hreq : (prepare W c method url requestBody).1 = .ok req) :
    request W assign (some c) method url requestBody responseBody =
      match W.roundTrip req with
      | .error e =>
        ⟨.returned (some (.transport e)), responseBody,
          [.encode, .newRequest method (c.baseUri ++ url), .send req,
            .log "[ERROR] [Previder Vault] Error from API received"]⟩
      | .ok res =>
        if res.statusCode < 200 ∨ res.statusCode ≥ 300 then
          if res.statusCode = 401 then
            ⟨.exited 1, responseBody,
              [.encode, .newRequest method (c.baseUri ++ url), .send req,
                .fatal "Unauthorized"]⟩
          else
            readBody assign res responseBody
              [.encode, .newRequest method (c.baseUri ++ url), .send req,
                .logStatus res.statusCode]
        else
          readBody assign res responseBody
            [.encode, .newRequest method (c.baseUri ++ url), .send req] := by
  have h2 := (prepare_ok W c method url requestBody req hreq).1
  unfold request
  simp only [hc, if_false]
  generalize prepare W c method url requestBody = pr at hreq h2
  obtain ⟨r, calls⟩ := pr
  simp only at hreq h2
  subst hreq h2
  simp only [List.cons_append, List.nil_append]

/-- Library calls made while the response is read: the decoder when there is a
destination, then `Close`, then `log.Fatal` if closing failed. -/
theorem readBody_trace {D : Type} (assign : JValue → D → D × Option TypeError)
    (res : Response) (responseBody : Option D) (trace : List Event) :
    (readBody assign res responseBody trace).trace =
      trace ++ ((if responseBody.isSome then [Event.decode] else []) ++
        (match res.closeErr with
          | none => [Event.close]
          | some e => [Event.close, Event.fatal e])) := by
  unfold readBody closeBody
  cases responseBody with
  | none => cases res.closeErr <;> simp
  | some d =>
    simp only [Option.isSome_some, if_true]
    split
    · split <;> cases res.closeErr <;> simp
    · cases res.closeErr <;> simp

/-- Requests sent in a trace made of two parts. -/
theorem sentRequests_append (a b : List Event) :
    sentRequests (a ++ b) = sentRequests a ++ sentRequests b := by
  induction a with
  | nil => rfl
  | cons e es ih => cases e <;> simp [sentRequests, ih]

/-- Reading the response sends nothing. -/
theorem sentRequests_readBody {D : Type} (assign : JValue → D → D × Option TypeError)
    (res : Response) (responseBody : Option D) (trace : List Event) :
    sentRequests (readBody assign res responseBody trace).trace = sentRequests trace := by
  rw [readBody_trace, sentRequests_append]
  cases responseBody <;> cases res.closeErr <;> simp [sentRequests]

/-- C2: on a client with a base URI, when the payload is encoded and the request
is built, exactly one request goes to the HTTP client; its header has exactly the
three entries Content-Type and Accept, both "application/json; charset=utf-8",
and the API key (stored under the canonical key "X-Api-Key", which is what
`Get "X-API-Key"` reads) with the client's token; its URL is the base URI
followed by the path. -/
theorem request_sends_three_headers {P D : Type} (W : World P)
    (assign : JValue → D → D × Option TypeError) (c : VaultClient) (hc : c.baseUri ≠ "")
    (method url : String) (requestBody : Option P) (responseBody : Option D) (req : Request)
    (hreq : (prepare W c method url requestBody).1 = .ok req) :
    sentRequests (request W assign (some c) method url requestBody responseBody).trace = [req] ∧
      req.header =
        [("Content-Type", ["application/json; charset=utf-8"]), ("X-Api-Key", [c.token]),
          ("Accept", ["application/json; charset=utf-8"])] ∧
      req.header.length = 3 ∧
      req.header.get "Content-Type" = "application/json; charset=utf-8" ∧
      req.header.get "Accept" = "application/json; charset=utf-8" ∧
      req.header.get "X-API-Key" = c.token ∧
      req.url = c.baseUri ++ url := by
  have hsent : sentRequests (request W assign (some c) method url requestBody
      responseBody).trace = [req] := by
    rw [request_prepared W assign c hc method url requestBody responseBody req hreq]
    cases W.roundTrip req with
    | error e => simp [sentRequests]
    | ok res =>
      simp only
      split
      · split
        · simp [sentRequests]
        · rw [sentRequests_readBody]; simp [sentRequests]
      · rw [sentRequests_readBody]; simp [sentRequests]
  obtain ⟨-, b, -, hreq2⟩ := prepare_ok W c method url requestBody req hreq
  subst hreq2
  exact ⟨hsent, rfl, rfl, rfl, rfl, rfl, rfl⟩

/-- C2 at a POST of an environment by the sample client. -/
theorem request_sends_three_headers_witness :
    (sampleClient.baseUri ≠ "" ∧
      (prepare (answering ⟨200, "", none⟩) sampleClient "POST" "/environments"
          (some [("name", "dev")])).1 =
        .ok ⟨"POST", "https://vault.previder.io/environments", sampleHeader,
          "\x7b\"name\":\"dev\"\x7d\n"⟩) ∧
      sentRequests (request (answering ⟨200, "", none⟩) (assignRecord id) (some sampleClient)
          "POST" "/environments" (some [("name", "dev")])
          (some [("id", ""), ("name", "")])).trace =
        [⟨"POST", "https://vault.previder.io/environments", sampleHeader,
          "\x7b\"name\":\"dev\"\x7d\n"⟩] :=
  ⟨⟨by decide, rfl⟩,
    (request_sends_three_headers (answering ⟨200, "", none⟩) (assignRecord id) sampleClient
      (by decide) "POST" "/environments" (some [("name", "dev")])
      (some [("id", ""), ("name", "")]) _ rfl).1⟩

/-! ## Status codes -/

/-- A call whose exchange succeeded with a status other than 401 reads the
response; a status outside [200,300) is logged first. -/
theorem request_answered {P D : Type} (W : World P)
    (assign : JValue → D → D × Option TypeError) (c : VaultClient) (hc : c.baseUri ≠ "")
    (method url : String) (requestBody : Option P) (responseBody : Option D) (req : Request)
    (hreq : (prepare W c method url requestBody).1 = .ok req) (res : Response)
    (hdo : W.roundTrip req = .ok res) (h401 : res.statusCode ≠ 401) :
    request W assign (some c) method url requestBody responseBody =
      readBody assign res responseBody
        ([.encode, .newRequest method (c.baseUri ++ url), .send req] ++
          if res.statusCode < 200 ∨ res.statusCode ≥ 300 then [.logStatus res.statusCode]
          else []) := by
  rw [request_prepared W assign c hc method url requestBody responseBody req hreq, hdo]
  simp only [h401, if_false]
  split <;> rfl

/-- C6 amended: when the response has status 401, `request` calls
`log.Fatal("Unauthorized")` and the process exits with status 1; nothing is
returned to the caller, the body is neither decoded nor closed, and the
destination is untouched. -/
theorem request_unauthorized_exits {P D : Type} (W : World P)
    (assign : JValue → D → D × Option TypeError) (c : VaultClient) (hc : c.baseUri ≠ "")
    (method url : String) (requestBody : Option P) (responseBody : Option D) (req : Request)
    (hreq : (prepare W c method url requestBody).1 = .ok req) (res : Response)
    (hdo : W.roundTrip req = .ok res) (h401 : res.statusCode = 401) :
    request W assign (some c) method url requestBody responseBody =
      ⟨.exited 1, responseBody,
        [.encode, .newRequest method (c.baseUri ++ url), .send req, .fatal "Unauthorized"]⟩ := by
  rw [request_prepared W assign c hc method url requestBody responseBody req hreq, hdo]
  simp [h401]

/-- C6 amended, at a GET answered by 401. -/
theorem request_unauthorized_exits_witness :
    (sampleClient.baseUri ≠ "" ∧
      (prepare (answering ⟨401, "", none⟩) sampleClient "GET" "/secrets" none).1 =
        .ok ⟨"GET", "https://vault.previder.io/secrets", sampleHeader, "null\n"⟩ ∧
      (answering ⟨401, "", none⟩).roundTrip
          ⟨"GET", "https://vault.previder.io/secrets", sampleHeader, "null\n"⟩ =
        .ok ⟨401, "", none⟩ ∧
      (⟨401, "", none⟩ : Response).statusCode = 401) ∧
      request (answering ⟨401, "", none⟩) (assignRecord id) (some sampleClient) "GET" "/secrets"
          none (some [("id", "")]) =
        ⟨.exited 1, some [("id", "")],
          [.encode, .newRequest "GET" "https://vault.previder.io/secrets",
            .send ⟨"GET", "https://vault.previder.io/secrets", sampleHeader, "null\n"⟩,
            .fatal "Unauthorized"]⟩ :=
  ⟨⟨by decide, rfl, rfl, rfl⟩,
    request_unauthorized_exits (answering ⟨401, "", none⟩) (assignRecord id) sampleClient
      (by decide) "GET" "/secrets" none (some [("id", "")]) _ rfl ⟨401, "", none⟩ rfl rfl⟩

/-- C6 fails on the code: a GET answered by 401 does not return an error to the
caller, it ends the process. -/
theorem request_unauthorized_counterexample :
    (request (answering ⟨401, "", none⟩) (assignRecord id) (some sampleClient) "GET" "/secrets"
        none (some [("id", "")])).outcome = .exited 1 ∧
      ¬ ∃ err, (request (answering ⟨401, "", none⟩) (assignRecord id) (some sampleClient) "GET"
        "/secrets" none (some [("id", "")])).outcome = .returned err := by
  constructor
  · decide
  · rintro ⟨err, h⟩
    have h1 : (request (answering ⟨401, "", none⟩) (assignRecord id) (some sampleClient) "GET"
        "/secrets" none (some [("id", "")])).outcome = .exited 1 := by decide
    rw [h1] at h
    cases h

/-- C7 amended: a status outside [200,300) other than 401 is written
to the log and changes nothing else: the call ends as it would for status 200
with the same body, and leaves the same destination.  In particular it returns
nil when there is no destination and the body closes. -/
theorem request_error_status_only_logged {P D : Type} (W : World P)
    (assign : JValue → D → D × Option TypeError) (c : VaultClient) (hc : c.baseUri ≠ "")
    (method url : String) (requestBody : Option P) (responseBody : Option D) (req : Request)
    (hreq : (prepare W c method url requestBody).1 = .ok req) (res : Response)
    (hdo : W.roundTrip req = .ok res)
    (hstatus : res.statusCode < 200 ∨ res.statusCode ≥ 300) (h401 : res.statusCode ≠ 401) :
    Event.logStatus res.statusCode ∈
        (request W assign (some c) method url requestBody responseBody).trace ∧
      (request W assign (some c) method url requestBody responseBody).outcome =
        (request (W.answeredBy { res with statusCode := 200 }) assign (some c) method url
          requestBody responseBody).outcome ∧
      (request W assign (some c) method url requestBody responseBody).dest =
        (request (W.answeredBy { res with statusCode := 200 }) assign (some c) method url
          requestBody responseBody).dest ∧
      (responseBody = none → res.closeErr = none →
        (request W assign (some c) method url requestBody responseBody).outcome =
          .returned none) := by
  have hreq2 : (prepare (W.answeredBy { res with statusCode := 200 }) c method url
      requestBody).1 = .ok req := hreq
  rw [request_answered W assign c hc method url requestBody responseBody req hreq res hdo h401,
    request_answered (W.answeredBy { res with statusCode := 200 }) assign c hc method url
      requestBody responseBody req hreq2 { res with statusCode := 200 } rfl
      (by show (200 : Int) ≠ 401; decide)]
  simp only [hstatus, if_true]
  refine ⟨?_, ?_, ?_, ?_⟩
  · rw [readBody_trace]; simp
  · unfold readBody closeBody
    cases responseBody with
    | none => cases res.closeErr <;> simp
    | some d =>
      simp only
      split
      · split <;> cases res.closeErr <;> simp
      · cases res.closeErr <;> simp
  · unfold readBody closeBody
    cases responseBody with
    | none => cases res.closeErr <;> simp
    | some d =>
      simp only
      split
      · split <;> cases res.closeErr <;> simp
      · cases res.closeErr <;> simp
  · intro hnone hclose
    subst hnone
    simp [readBody, closeBody, hclose]

/-- C7 amended, at a DELETE answered by 500. -/
theorem request_error_status_only_logged_witness :
    (sampleClient.baseUri ≠ "" ∧
      (prepare (answering ⟨500, "boom", none⟩) sampleClient "DELETE" "/secrets/sec-1" none).1 =
        .ok ⟨"DELETE", "https://vault.previder.io/secrets/sec-1", sampleHeader, "null\n"⟩ ∧
      (answering ⟨500, "boom", none⟩).roundTrip
          ⟨"DELETE", "https://vault.previder.io/secrets/sec-1", sampleHeader, "null\n"⟩ =
        .ok ⟨500, "boom", none⟩ ∧
      ((⟨500, "boom", none⟩ : Response).statusCode < 200 ∨
        (⟨500, "boom", none⟩ : Response).statusCode ≥ 300) ∧
      (⟨500, "boom", none⟩ : Response).statusCode ≠ 401) ∧
      Event.logStatus 500 ∈
        (request (answering ⟨500, "boom", none⟩) (assignRecord id) (some sampleClient) "DELETE"
          "/secrets/sec-1" none none).trace :=
  ⟨⟨by decide, rfl, rfl, by decide, by decide⟩,
    (request_error_status_only_logged (answering ⟨500, "boom", none⟩) (assignRecord id)
      sampleClient (by decide) "DELETE" "/secrets/sec-1" none none _ rfl ⟨500, "boom", none⟩ rfl
      (by decide) (by decide)).1⟩

/-- C7 fails on the code: a DELETE answered by 500 returns nil to the caller; the
status only reaches the log. -/
theorem request_error_status_counterexample :
    request (answering ⟨500, "boom", none⟩) (assignRecord id) (some sampleClient) "DELETE"
        "/secrets/sec-1" none none =
      ⟨.returned none, none,
        [.encode, .newRequest "DELETE" "https://vault.previder.io/secrets/sec-1",
          .send ⟨"DELETE", "https://vault.previder.io/secrets/sec-1", sampleHeader, "null\n"⟩,
          .logStatus 500, .close]⟩ := by
  decide

/-! ## The decoder on the compact encoding of a record -/

theorem hexVal_hexDigit : ∀ n, n < 16 → hexVal (hexDigit n) = some n := by
  decide

theorem scanString_escapeChar (c : Char) (rest : List Char) (acc : List StrItem) :
    scanString .plain (escapeChar c ++ rest) acc = scanString .plain rest (itemOf c :: acc) := by
  unfold escapeChar itemOf
  by_cases h1 : c.toNat = 34 ∨ c.toNat = 92
  · have h32 : ¬ c.toNat < 32 := by omega
    have h117 : ¬ c.toNat = 117 := by omega
    have hu : unescape c = some c := by
      unfold unescape
      rcases h1 with h | h <;> simp [h]
    simp only [h1, if_true, h32, if_false, List.cons_append, List.nil_append]
    rw [scanString]
    simp only [show (Char.ofNat 92).toNat = 92 from rfl]
    simp only [show ¬ (92 = 34) by decide, if_false, if_true]
    rw [scanString]
    simp only [h117, if_false, hu]
  · by_cases h2 : c.toNat < 32
    · simp only [h1, if_false, h2, if_true, List.cons_append, List.nil_append]
      have hd1 := hexVal_hexDigit (c.toNat / 16) (by omega)
      have hd2 := hexVal_hexDigit (c.toNat % 16) (by omega)
      have h0 : hexVal (Char.ofNat 48) = some 0 := by decide
      rw [scanString]
      simp only [show (Char.ofNat 92).toNat = 92 from rfl]
      simp only [show ¬ (92 = 34) by decide, if_false, if_true]
      rw [scanString]
      simp only [show (Char.ofNat 117).toNat = 117 from rfl, if_true]
      rw [scanString]
      simp only [h0, show (0 < 3) by decide, if_true]
      rw [scanString]
      simp only [h0, show (0 + 1 < 3) by decide, if_true]
      rw [scanString]
      simp only [hd1, show (0 + 1 + 1 < 3) by decide, if_true]
      rw [scanString]
      simp only [hd2, show ¬ (0 + 1 + 1 + 1 < 3) by decide, if_false]
      have : 16 * (16 * (16 * (16 * 0 + 0) + 0) + c.toNat / 16) + c.toNat % 16 = c.toNat := by
        omega
      rw [this]
    · have h34 : ¬ c.toNat = 34 := fun h => h1 (Or.inl h)
      have h92 : ¬ c.toNat = 92 := fun h => h1 (Or.inr h)
      simp only [h1, if_false, h2, List.cons_append, List.nil_append]
      rw [scanString]
      simp only [h34, h92, h2, if_false]

theorem scanString_escapeChars (s rest : List Char) (acc : List StrItem) :
    scanString .plain (escapeChars s ++ Char.ofNat 34 :: rest) acc =
      .ok (acc.reverse ++ s.map itemOf) rest := by
  induction s generalizing acc with
  | nil =>
    simp only [escapeChars, List.nil_append, List.map_nil, List.append_nil]
    rw [scanString]
    simp only [show (Char.ofNat 34).toNat = 34 from rfl, if_true]
  | cons c cs ih =>
    simp only [escapeChars, List.append_assoc, List.map_cons]
    rw [scanString_escapeChar, ih]
    simp

theorem decodeItems_unit (n : Nat) (hn : n < 0xD800) (rest : List StrItem) :
    decodeItems (.unit n :: rest) = Char.ofNat n :: decodeItems rest := by
  have h : ¬ (0xD800 ≤ n ∧ n < 0xE000) := by omega
  cases rest with
  | nil => simp [decodeItems, h]
  | cons i is => cases i <;> simp [decodeItems, h]

theorem decodeItems_itemOf (s : List Char) : decodeItems (s.map itemOf) = s := by
  induction s with
  | nil => rfl
  | cons c cs ih =>
    simp only [List.map_cons]
    by_cases h : c.toNat < 32
    · have hi : itemOf c = .unit c.toNat := by simp [itemOf, h]
      rw [hi, decodeItems_unit _ (by omega), Char.ofNat_toNat, ih]
    · have hi : itemOf c = .char c := by simp [itemOf, h]
      rw [hi, decodeItems, ih]

theorem skipSpace_cons (c : Char) (cs : List Char) (h : isSpace c = false) :
    skipSpace (c :: cs) = c :: cs := by
  simp [skipSpace, h]

theorem parse_quoteString (fuel depth : Nat) (s : String) (rest : List Char) :
    parse (fuel + 1) depth .value (quoteString s ++ rest) = .ok (.string s) rest := by
  unfold quoteString
  simp only [List.cons_append, List.append_assoc, List.nil_append]
  rw [parse, skipSpace_cons _ _ (by decide)]
  simp only [show (Char.ofNat 34).toNat = 34 from rfl]
  simp only [show ¬ (34 = 123) by decide, show ¬ (34 = 91) by decide, if_false, if_true]
  rw [scanString_escapeChars]
  simp only [List.reverse_nil, List.nil_append, decodeItems_itemOf]

theorem scanString_quoteString (s : String) (rest : List Char) :
    ∃ tail, quoteString s ++ rest = Char.ofNat 34 :: tail ∧
      scanString .plain tail [] = .ok (s.data.map itemOf) rest := by
  refine ⟨escapeChars s.data ++ Char.ofNat 34 :: rest, ?_, ?_⟩
  · simp [quoteString]
  · rw [scanString_escapeChars]; simp

theorem parse_member (fuel depth : Nat) (acc : List (String × JValue)) (f : String × String)
    (rest : List Char) :
    parse (fuel + 2) depth (.key acc) (quoteString f.1 ++ Char.ofNat 58 :: (quoteString f.2 ++ rest)) =
      parse (fuel + 1) depth (.afterMember (acc ++ [toMember f])) rest := by
  obtain ⟨tail, h1, h2⟩ := scanString_quoteString f.1 (Char.ofNat 58 :: (quoteString f.2 ++ rest))
  rw [h1, parse, skipSpace_cons _ _ (by decide)]
  simp only [show (Char.ofNat 34).toNat = 34 from rfl, ne_eq, not_true_eq_false, if_false, h2]
  rw [skipSpace_cons _ _ (by decide)]
  simp only [show (Char.ofNat 58).toNat = 58 from rfl, not_true_eq_false, if_false]
  rw [parse_quoteString]
  simp only [decodeItems_itemOf, toMember]

theorem parse_members (fs : Record) :
    ∀ (f : String × String) (acc : List (String × JValue)) (fuel depth : Nat) (rest : List Char),
      2 * fs.length + 2 ≤ fuel →
      parse fuel depth (.key acc) (encodeMembers (f :: fs) ++ Char.ofNat 125 :: rest) =
        .ok (.object (acc ++ (f :: fs).map toMember)) rest := by
  induction fs with
  | nil =>
    intro f acc fuel depth rest hfuel
    obtain ⟨k, rfl⟩ : ∃ k, fuel = k + 2 := ⟨fuel - 2, by simp at hfuel; omega⟩
    simp only [encodeMembers, List.append_assoc, List.cons_append]
    rw [parse_member, parse, skipSpace_cons _ _ (by decide)]
    simp only [show (Char.ofNat 125).toNat = 125 from rfl]
    simp only [show ¬ (125 = 44) by decide, if_false, if_true, List.map_cons, List.map_nil]
  | cons g gs ih =>
    intro f acc fuel depth rest hfuel
    obtain ⟨k, rfl⟩ : ∃ k, fuel = k + 2 := ⟨fuel - 2, by simp at hfuel; omega⟩
    simp only [encodeMembers, List.append_assoc, List.cons_append]
    rw [parse_member, parse, skipSpace_cons _ _ (by decide)]
    simp only [show (Char.ofNat 44).toNat = 44 from rfl, if_true]
    have := ih g (acc ++ [toMember f]) k depth rest (by simp at hfuel ⊢; omega)
    simp only [List.append_assoc, List.cons_append] at this
    rw [this]
    simp

theorem quoteString_length (s : String) : 2 ≤ (quoteString s).length := by
  simp [quoteString]

theorem encodeMembers_length (r : Record) : 2 * r.length ≤ (encodeMembers r).length := by
  induction r with
  | nil => simp
  | cons f fs ih =>
    cases fs with
    | nil =>
      have := quoteString_length f.1
      simp only [encodeMembers, List.length_append, List.length_cons, List.length_nil]
      omega
    | cons g gs =>
      have := quoteString_length f.1
      simp only [encodeMembers, List.length_append, List.length_cons] at ih ⊢
      omega

theorem encodeMembers_head (f : String × String) (fs : Record) :
    ∃ tail, encodeMembers (f :: fs) = Char.ofNat 34 :: tail := by
  cases fs <;> simp [encodeMembers, quoteString]

theorem firstValue_encodeRecord (r : Record) :
    firstValue (encodeRecord r) = some (.ok (.object (r.map toMember)) []) := by
  unfold firstValue encodeRecord
  simp only
  rw [skipSpace_cons _ _ (by decide)]
  simp only [Option.some.injEq]
  rw [parse, skipSpace_cons _ _ (by decide)]
  simp only [show (Char.ofNat 123).toNat = 123 from rfl, if_true,
    show ¬ (maxNestingDepth ≤ 0) by decide, if_false]
  cases r with
  | nil =>
    simp only [encodeMembers, List.nil_append]
    rw [skipSpace_cons _ _ (by decide)]
    simp [show (Char.ofNat 125).toNat = 125 from rfl]
  | cons f fs =>
    have hlen := encodeMembers_length (f :: fs)
    obtain ⟨tail, htail⟩ := encodeMembers_head f fs
    have hpm := parse_members fs f [] ((encodeMembers (f :: fs) ++ [Char.ofNat 125]).length + 1)
      (0 + 1) [] (by simp only [List.length_append, List.length_cons, List.length_nil] at hlen ⊢; omega)
    rw [htail] at hpm ⊢
    simp only [List.cons_append] at hpm ⊢
    rw [skipSpace_cons _ _ (by decide)]
    simp only [show (Char.ofNat 34).toNat = 34 from rfl, show ¬ (34 = 125) by decide, if_false]
    rw [hpm]
    simp

theorem Scan.Good.mono {α : Type} {s : Scan α} {m n : Nat} (h : s.Good m) (hmn : m ≤ n) :
    s.Good n := by
  cases s with
  | ok v rest => simp only [Scan.Good] at h ⊢; omega
  | bad ctx => trivial
  | truncated => trivial
  | exhausted => exact h

theorem skipSpace_length (cs : List Char) : (skipSpace cs).length ≤ cs.length := by
  induction cs with
  | nil => simp [skipSpace]
  | cons c rest ih =>
    simp only [skipSpace]
    split
    · simp only [List.length_cons]; omega
    · simp

theorem scanString_good :
    ∀ (cs : List Char) (st : StrState) (acc : List StrItem),
      (scanString st cs acc).Good cs.length := by
  intro cs
  induction cs with
  | nil => intro st acc; cases st <;> simp [scanString, Scan.Good]
  | cons c rest ih =>
    intro st acc
    cases st <;> rw [scanString] <;> repeat' split
    all_goals first
      | exact (ih _ _).mono (by simp)
      | simp [Scan.Good]

theorem scanNumber_good :
    ∀ (cs : List Char) (st : NumState) (acc : List Char),
      (scanNumber st cs acc).Good (cs.length + 1) := by
  intro cs
  induction cs with
  | nil => intro st acc; cases st <;> simp [scanNumber, Scan.Good, NumState.complete]
  | cons c rest ih =>
    intro st acc
    cases st <;> rw [scanNumber] <;> repeat' split
    all_goals first
      | exact (ih _ _).mono (by simp)
      | simp [Scan.Good]

theorem scanLiteral_good (name : String) :
    ∀ (es cs : List Char), (scanLiteral name es cs).Good (cs.length + 1) := by
  intro es
  induction es with
  | nil => intro cs; simp [scanLiteral, Scan.Good]
  | cons e es ih =>
    intro cs
    cases cs with
    | nil => simp [scanLiteral, Scan.Good]
    | cons c rest =>
      rw [scanLiteral]
      split
      · exact (ih _).mono (by simp)
      · simp [Scan.Good]

theorem skipSpace_eq_cons {cs : List Char} {c : Char} {rest : List Char}
    (h : skipSpace cs = c :: rest) : rest.length < cs.length := by
  have := skipSpace_length cs
  rw [h] at this
  simp only [List.length_cons] at this
  omega

theorem parse_good :
    ∀ (fuel depth : Nat) (e : Expect) (cs : List Char), cs.length < fuel →
      (parse fuel depth e cs).Good cs.length := by
  intro fuel
  induction fuel with
  | zero => intro depth e cs h; omega
  | succ n ih =>
    intro depth e cs hfuel
    cases e with
    | value =>
      rw [parse]
      split
      · trivial
      · rename_i c rest hsk
        have hlen := skipSpace_eq_cons hsk
        split
        · split
          · trivial
          · split
            · trivial
            · rename_i c1 r1 hsk1
              have hlen1 := skipSpace_eq_cons hsk1
              split
              · simp only [Scan.Good]; omega
              · exact (ih _ _ _ (by simp only [List.length_cons]; omega)).mono
                  (by simp only [List.length_cons]; omega)
        · split
          · split
            · trivial
            · split
              · trivial
              · rename_i c1 r1 hsk1
                have hlen1 := skipSpace_eq_cons hsk1
                split
                · simp only [Scan.Good]; omega
                · have h1 := ih (depth + 1) .value (c1 :: r1)
                    (by simp only [List.length_cons]; omega)
                  split
                  · rename_i v r2 heq
                    rw [heq] at h1
                    simp only [Scan.Good, List.length_cons] at h1
                    exact (ih _ _ _ (by omega)).mono (by omega)
                  · trivial
                  · trivial
                  · rename_i heq
                    rw [heq] at h1
                    exact h1.elim
          · split
            · have h1 := scanString_good rest .plain []
              split
              · rename_i items r1 heq
                rw [heq] at h1
                simp only [Scan.Good] at h1 ⊢
                omega
              · trivial
              · trivial
              · rename_i heq
                rw [heq] at h1
                exact h1.elim
            · split
              · have h1 := scanNumber_good rest .neg [c]
                split
                · rename_i lit r1 heq
                  rw [heq] at h1
                  simp only [Scan.Good] at h1 ⊢
                  omega
                · trivial
                · trivial
                · rename_i heq
                  rw [heq] at h1
                  exact h1.elim
              · split
                · have h1 := scanNumber_good rest .zero [c]
                  split
                  · rename_i lit r1 heq
                    rw [heq] at h1
                    simp only [Scan.Good] at h1 ⊢
                    omega
                  · trivial
                  · trivial
                  · rename_i heq
                    rw [heq] at h1
                    exact h1.elim
                · split
                  · have h1 := scanNumber_good rest .int [c]
                    split
                    · rename_i lit r1 heq
                      rw [heq] at h1
                      simp only [Scan.Good] at h1 ⊢
                      omega
                    · trivial
                    · trivial
                    · rename_i heq
                      rw [heq] at h1
                      exact h1.elim
                  · split
                    · have h1 := scanLiteral_good "true" "rue".data rest
                      split
                      · rename_i u r1 heq
                        rw [heq] at h1
                        simp only [Scan.Good] at h1 ⊢
                        omega
                      · trivial
                      · trivial
                      · rename_i heq
                        rw [heq] at h1
                        exact h1.elim
                    · split
                      · have h1 := scanLiteral_good "false" "alse".data rest
                        split
                        · rename_i u r1 heq
                          rw [heq] at h1
                          simp only [Scan.Good] at h1 ⊢
                          omega
                        · trivial
                        · trivial
                        · rename_i heq
                          rw [heq] at h1
                          exact h1.elim
                      · split
                        · have h1 := scanLiteral_good "null" "ull".data rest
                          split
                          · rename_i u r1 heq
                            rw [heq] at h1
                            simp only [Scan.Good] at h1 ⊢
                            omega
                          · trivial
                          · trivial
                          · rename_i heq
                            rw [heq] at h1
                            exact h1.elim
                        · trivial
    | key acc =>
      rw [parse]
      split
      · trivial
      · rename_i c rest hsk
        have hlen := skipSpace_eq_cons hsk
        split
        · trivial
        · have h1 := scanString_good rest .plain []
          split
          · trivial
          · trivial
          · rename_i heq
            rw [heq] at h1
            exact h1.elim
          · rename_i items r1 heq
            rw [heq] at h1
            simp only [Scan.Good] at h1
            split
            · trivial
            · rename_i c1 r2 hsk1
              have hlen1 := skipSpace_eq_cons hsk1
              split
              · trivial
              · have h2 := ih depth .value r2 (by omega)
                split
                · rename_i v r3 heq2
                  rw [heq2] at h2
                  simp only [Scan.Good] at h2
                  exact (ih _ _ _ (by omega)).mono (by omega)
                · trivial
                · trivial
                · rename_i heq2
                  rw [heq2] at h2
                  exact h2.elim
    | afterMember acc =>
      rw [parse]
      split
      · trivial
      · rename_i c rest hsk
        have hlen := skipSpace_eq_cons hsk
        split
        · exact (ih _ _ _ (by omega)).mono (by omega)
        · split
          · simp only [Scan.Good]; omega
          · trivial
    | afterElem acc =>
      rw [parse]
      split
      · trivial
      · rename_i c rest hsk
        have hlen := skipSpace_eq_cons hsk
        split
        · have h1 := ih depth .value rest (by omega)
          split
          · rename_i v r1 heq
            rw [heq] at h1
            simp only [Scan.Good] at h1
            exact (ih _ _ _ (by omega)).mono (by omega)
          · trivial
          · trivial
          · rename_i heq
            rw [heq] at h1
            exact h1.elim
        · split
          · simp only [Scan.Good]; omega
          · trivial

/-- The recursion budget of `firstValue` is never used up: the scan of a body
ends with a value, a syntax error, or the end of the input. -/
theorem firstValue_ne_exhausted (body : String) : firstValue body ≠ some .exhausted := by
  unfold firstValue
  split
  · simp
  · rename_i c cs hsk
    have h := parse_good (cs.length + 2) 0 .value (c :: cs) (by simp)
    intro heq
    simp only [Option.some.injEq] at heq
    rw [heq] at h
    exact h

/-- A body of whitespace only holds no value: the decoder reports end of stream. -/
theorem firstValue_whitespace (body : String) (h : ∀ c ∈ body.data, isSpace c = true) :
    firstValue body = none := by
  have hs : ∀ cs : List Char, (∀ c ∈ cs, isSpace c = true) → skipSpace cs = [] := by
    intro cs
    induction cs with
    | nil => intro _; rfl
    | cons c rest ih =>
      intro hc
      simp only [skipSpace, hc c (List.mem_cons_self _ _), if_true]
      exact ih fun d hd => hc d (List.mem_cons_of_mem _ hd)
  unfold firstValue
  rw [hs body.data h]

/-- A body whose first character after whitespace cannot start a JSON value (it
is none of the brackets, the quote, the minus sign, a digit, `t`, `f`, `n`) is a
syntax error for the decoder. -/
theorem firstValue_bad_start (body : String) (c : Char) (cs : List Char)
    (hskip : skipSpace body.data = c :: cs)
    (hc : c.toNat ∉ [123, 91, 34, 45, 116, 102, 110]) (hd : isDigit c = false) :
    firstValue body = some (.bad "looking for beginning of value") := by
  simp only [List.mem_cons, List.mem_singleton, List.not_mem_nil, or_false, not_or] at hc
  obtain ⟨h1, h2, h3, h4, h5, h6, h7⟩ := hc
  have h48 : ¬ c.toNat = 48 := by
    intro h
    simp [isDigit, h] at hd
  have hsp : skipSpace (c :: cs) = c :: cs := by
    cases hb : body.data with
    | nil => simp [hb, skipSpace] at hskip
    | cons b bs =>
      have : ∀ l : List Char, skipSpace l = c :: cs → isSpace c = false := by
        intro l
        induction l with
        | nil => intro h; simp [skipSpace] at h
        | cons x xs ih =>
          intro h
          simp only [skipSpace] at h
          split at h
          · exact ih h
          · rename_i hx
            simp only [List.cons.injEq] at h
            rw [← h.1]
            simpa using hx
      exact skipSpace_cons c cs (this _ hskip)
  unfold firstValue
  rw [hskip]
  simp only [Option.some.injEq]
  rw [parse, hsp]
  simp only [h1, h2, h3, h4, h5, h6, h7, h48, hd, if_false, Bool.false_eq_true]

/-! ## Bodies cut short -/

/-- A string literal body cut off inside an escape sequence. -/
theorem scanString_cut_escapeChar (c : Char) (p a : List Char) (acc : List StrItem)
    (h : escapeChar c = p ++ a) (ha : a ≠ []) : scanString .plain p acc = .truncated := by
  have h0 : hexVal (Char.ofNat 48) = some 0 := by decide
  unfold escapeChar at h
  split at h
  · rcases p with _ | ⟨p1, _ | ⟨p2, p3⟩⟩
    · rfl
    · simp only [List.cons_append, List.nil_append, List.cons.injEq] at h
      rw [← h.1]
      rfl
    · simp only [List.cons_append, List.cons.injEq] at h
      have := h.2.2
      simp only [List.nil_eq, List.append_eq_nil] at this
      exact absurd this.2 ha
  · split at h
    · rename_i hlt
      have hd1 := hexVal_hexDigit (c.toNat / 16) (by omega)
      rcases p with _ | ⟨p1, _ | ⟨p2, _ | ⟨p3, _ | ⟨p4, _ | ⟨p5, _ | ⟨p6, p7⟩⟩⟩⟩⟩⟩
      · rfl
      · simp only [List.cons_append, List.nil_append, List.cons.injEq] at h
        rw [← h.1]; rfl
      · simp only [List.cons_append, List.nil_append, List.cons.injEq] at h
        rw [← h.1, ← h.2.1]; rfl
      · simp only [List.cons_append, List.nil_append, List.cons.injEq] at h
        rw [← h.1, ← h.2.1, ← h.2.2.1]; rfl
      · simp only [List.cons_append, List.nil_append, List.cons.injEq] at h
        rw [← h.1, ← h.2.1, ← h.2.2.1, ← h.2.2.2.1]; rfl
      · simp only [List.cons_append, List.nil_append, List.cons.injEq] at h
        rw [← h.1, ← h.2.1, ← h.2.2.1, ← h.2.2.2.1, ← h.2.2.2.2.1]
        rw [scanString]
        simp only [show (Char.ofNat 92).toNat = 92 from rfl]
        simp only [show ¬ (92 = 34) by decide, if_false, if_true]
        rw [scanString]
        simp only [show (Char.ofNat 117).toNat = 117 from rfl, if_true]
        rw [scanString]
        simp only [h0, show (0 < 3) by decide, if_true]
        rw [scanString]
        simp only [h0, show (0 + 1 < 3) by decide, if_true]
        rw [scanString]
        simp only [hd1, show (0 + 1 + 1 < 3) by decide, if_true]
        rw [scanString]
      · simp only [List.cons_append, List.cons.injEq] at h
        have := h.2.2.2.2.2.2
        simp only [List.nil_eq, List.append_eq_nil] at this
        exact absurd this.2 ha
    · rcases p with _ | ⟨p1, p2⟩
      · rfl
      · simp only [List.cons_append, List.cons.injEq] at h
        have := h.2
        simp only [List.nil_eq, List.append_eq_nil] at this
        exact absurd this.2 ha

/-- A string literal cut off before its closing quote. -/
theorem scanString_cut (s : List Char) :
    ∀ (p t : List Char) (acc : List StrItem), p ++ t = escapeChars s ++ [Char.ofNat 34] →
      t ≠ [] → scanString .plain p acc = .truncated := by
  induction s with
  | nil =>
    intro p t acc h ht
    rcases p with _ | ⟨p1, p2⟩
    · rfl
    · simp only [escapeChars, List.nil_append, List.cons_append, List.cons.injEq] at h
      have := h.2
      simp only [List.append_eq_nil] at this
      exact absurd this.2 ht
  | cons c cs ih =>
    intro p t acc h ht
    simp only [escapeChars, List.append_assoc] at h
    rcases List.append_eq_append_iff.mp h with ⟨a, ha1, ha2⟩ | ⟨b, hb1, hb2⟩
    · by_cases hne : a = []
      · subst hne
        simp only [List.append_nil] at ha1
        rw [← ha1]
        have := scanString_escapeChar c [] acc
        simp only [List.append_nil] at this
        rw [this]
        rfl
      · exact scanString_cut_escapeChar c p a acc ha1 hne
    · rw [hb1, scanString_escapeChar]
      exact ih b t _ hb2.symm ht

/-- A string literal cut off before its end, where a value is expected. -/
theorem parse_value_cut (fuel depth : Nat) (s : String) (p a : List Char)
    (h : quoteString s = p ++ a) (ha : a ≠ []) :
    parse (fuel + 1) depth .value p = .truncated := by
  rcases p with _ | ⟨p1, p2⟩
  · rfl
  · simp only [quoteString, List.cons_append, List.cons.injEq] at h
    rw [← h.1, parse, skipSpace_cons _ _ (by decide)]
    simp only [show (Char.ofNat 34).toNat = 34 from rfl]
    simp only [show ¬ (34 = 123) by decide, show ¬ (34 = 91) by decide, if_false, if_true]
    rw [scanString_cut s.data p2 a [] h.2.symm ha]

/-- A string literal cut off before its end, where a key is expected. -/
theorem parse_key_cut (fuel depth : Nat) (acc : List (String × JValue)) (s : String)
    (p a : List Char) (h : quoteString s = p ++ a) (ha : a ≠ []) :
    parse (fuel + 1) depth (.key acc) p = .truncated := by
  rcases p with _ | ⟨p1, p2⟩
  · rfl
  · simp only [quoteString, List.cons_append, List.cons.injEq] at h
    rw [← h.1, parse, skipSpace_cons _ _ (by decide)]
    simp only [show (Char.ofNat 34).toNat = 34 from rfl, ne_eq, not_true_eq_false, if_false]
    rw [scanString_cut s.data p2 a [] h.2.symm ha]

/-- The input ends right after a key. -/
theorem parse_key_only (fuel depth : Nat) (acc : List (String × JValue)) (s : String) :
    parse (fuel + 1) depth (.key acc) (quoteString s) = .truncated := by
  obtain ⟨tail, h1, h2⟩ := scanString_quoteString s []
  simp only [List.append_nil] at h1
  rw [h1, parse, skipSpace_cons _ _ (by decide)]
  simp only [show (Char.ofNat 34).toNat = 34 from rfl, ne_eq, not_true_eq_false, if_false, h2]
  rfl

/-- The input ends inside the value of a member. -/
theorem parse_key_value_cut (fuel depth : Nat) (acc : List (String × JValue)) (s : String)
    (b : List Char) (h : parse (fuel + 1) depth .value b = .truncated) :
    parse (fuel + 2) depth (.key acc) (quoteString s ++ Char.ofNat 58 :: b) = .truncated := by
  obtain ⟨tail, h1, h2⟩ := scanString_quoteString s (Char.ofNat 58 :: b)
  rw [h1, parse, skipSpace_cons _ _ (by decide)]
  simp only [show (Char.ofNat 34).toNat = 34 from rfl, ne_eq, not_true_eq_false, if_false, h2]
  rw [skipSpace_cons _ _ (by decide)]
  simp only [show (Char.ofNat 58).toNat = 58 from rfl, not_true_eq_false, if_false, h]

/-- The text of an object after its opening brace. -/
theorem encodeMembers_append (f : String × String) (fs : Record) (close : List Char) :
    encodeMembers (f :: fs) ++ close =
      quoteString f.1 ++ Char.ofNat 58 :: (quoteString f.2 ++
        match fs with
        | [] => close
        | g :: gs => Char.ofNat 44 :: (encodeMembers (g :: gs) ++ close)) := by
  cases fs <;> simp [encodeMembers]

/-- The members of an object cut off before the closing brace. -/
theorem parse_members_cut (fs : Record) :
    ∀ (f : String × String) (acc : List (String × JValue)) (fuel depth : Nat)
      (p t : List Char), p.length < fuel →
      p ++ t = encodeMembers (f :: fs) ++ [Char.ofNat 125] → t ≠ [] →
      parse fuel depth (.key acc) p = .truncated := by
  induction fs with
  | nil =>
    intro f acc fuel depth p t hfuel h ht
    rw [encodeMembers_append] at h
    simp only at h
    rcases List.append_eq_append_iff.mp h with ⟨a, ha1, -⟩ | ⟨b, hb1, hb2⟩
    · obtain ⟨k, rfl⟩ : ∃ k, fuel = k + 1 := ⟨fuel - 1, by omega⟩
      by_cases hne : a = []
      · subst hne
        simp only [List.append_nil] at ha1
        rw [← ha1]
        exact parse_key_only k depth acc f.1
      · exact parse_key_cut k depth acc f.1 p a ha1 hne
    · subst hb1
      rcases b with _ | ⟨b1, b2⟩
      · obtain ⟨k, rfl⟩ : ∃ k, fuel = k + 1 := ⟨fuel - 1, by omega⟩
        simp only [List.append_nil]
        exact parse_key_only k depth acc f.1
      · simp only [List.cons_append, List.cons.injEq] at hb2
        obtain ⟨hb21, hb22⟩ := hb2
        subst hb21
        have hq := quoteString_length f.1
        simp only [List.length_append, List.length_cons] at hfuel
        obtain ⟨k, rfl⟩ : ∃ k, fuel = k + 2 := ⟨fuel - 2, by omega⟩
        rcases List.append_eq_append_iff.mp hb22.symm with ⟨a2, ha21, -⟩ | ⟨b3, hb31, hb32⟩
        · by_cases hne : a2 = []
          · subst hne
            simp only [List.append_nil] at ha21
            rw [← ha21]
            have := parse_member k depth acc f []
            simp only [List.append_nil] at this
            rw [this]
            rfl
          · exact parse_key_value_cut k depth acc f.1 b2
              (parse_value_cut k depth f.2 b2 a2 ha21 hne)
        · subst hb31
          rw [parse_member]
          rcases b3 with _ | ⟨c1, c2⟩
          · rfl
          · simp only [List.cons_append, List.cons.injEq] at hb32
            have := hb32.2
            simp only [List.nil_eq, List.append_eq_nil] at this
            exact absurd this.2 ht
  | cons g gs ih =>
    intro f acc fuel depth p t hfuel h ht
    rw [encodeMembers_append] at h
    simp only at h
    rcases List.append_eq_append_iff.mp h with ⟨a, ha1, -⟩ | ⟨b, hb1, hb2⟩
    · obtain ⟨k, rfl⟩ : ∃ k, fuel = k + 1 := ⟨fuel - 1, by omega⟩
      by_cases hne : a = []
      · subst hne
        simp only [List.append_nil] at ha1
        rw [← ha1]
        exact parse_key_only k depth acc f.1
      · exact parse_key_cut k depth acc f.1 p a ha1 hne
    · subst hb1
      rcases b with _ | ⟨b1, b2⟩
      · obtain ⟨k, rfl⟩ : ∃ k, fuel = k + 1 := ⟨fuel - 1, by omega⟩
        simp only [List.append_nil]
        exact parse_key_only k depth acc f.1
      · simp only [List.cons_append, List.cons.injEq] at hb2
        obtain ⟨hb21, hb22⟩ := hb2
        subst hb21
        have hq := quoteString_length f.1
        simp only [List.length_append, List.length_cons] at hfuel
        obtain ⟨k, rfl⟩ : ∃ k, fuel = k + 2 := ⟨fuel - 2, by omega⟩
        rcases List.append_eq_append_iff.mp hb22.symm with ⟨a2, ha21, -⟩ | ⟨b3, hb31, hb32⟩
        · by_cases hne : a2 = []
          · subst hne
            simp only [List.append_nil] at ha21
            rw [← ha21]
            have := parse_member k depth acc f []
            simp only [List.append_nil] at this
            rw [this]
            rfl
          · exact parse_key_value_cut k depth acc f.1 b2
              (parse_value_cut k depth f.2 b2 a2 ha21 hne)
        · subst hb31
          rw [parse_member]
          rcases b3 with _ | ⟨c1, c2⟩
          · rfl
          · simp only [List.cons_append, List.cons.injEq] at hb32
            obtain ⟨hc1, hc2⟩ := hb32
            subst hc1
            have hq2 := quoteString_length f.2
            simp only [List.length_append, List.length_cons] at hfuel
            rw [parse, skipSpace_cons _ _ (by decide)]
            simp only [show (Char.ofNat 44).toNat = 44 from rfl, if_true]
            exact ih g _ k depth c2 t (by omega) hc2.symm ht

/-- The compact encoding of a record cut off anywhere before its end (and after its
opening brace or later) is input that ends inside the first value. -/
theorem firstValue_cut_record (r : Record) (p t : List Char)
    (h : p ++ t = (encodeRecord r).data) (hp : p ≠ []) (ht : t ≠ []) :
    firstValue (String.mk p) = some .truncated := by
  rcases p with _ | ⟨c, p1⟩
  · exact absurd rfl hp
  · simp only [encodeRecord, List.cons_append, List.cons.injEq] at h
    obtain ⟨hc, h1⟩ := h
    subst hc
    unfold firstValue
    simp only
    rw [skipSpace_cons _ _ (by decide)]
    simp only [Option.some.injEq]
    rw [parse, skipSpace_cons _ _ (by decide)]
    simp only [show (Char.ofNat 123).toNat = 123 from rfl, if_true,
      show ¬ (maxNestingDepth ≤ 0) by decide, if_false]
    rcases p1 with _ | ⟨c1, p2⟩
    · rfl
    · cases r with
      | nil =>
        simp only [encodeMembers, List.nil_append, List.cons_append, List.cons.injEq] at h1
        have := h1.2
        simp only [List.append_eq_nil] at this
        exact absurd this.2 ht
      | cons f fs =>
        obtain ⟨tail, htail⟩ := encodeMembers_head f fs
        have hcut := parse_members_cut fs f [] ((c1 :: p2).length + 1) (0 + 1) (c1 :: p2) t
          (by omega) h1 ht
        rw [htail] at h1
        simp only [List.cons_append, List.cons.injEq] at h1
        obtain ⟨hc1, -⟩ := h1
        subst hc1
        rw [skipSpace_cons _ _ (by decide)]
        simp only [show (Char.ofNat 34).toNat = 34 from rfl, show ¬ (34 = 125) by decide,
          if_false]
        simpa using hcut

/-! ## Reading the response -/

/-- C8: with no destination, when the transport succeeds with a status in
[200,300), `request` returns nil whatever the body holds; the decoder is never
called: after the request is sent the only library call is `Close`. -/
theorem request_discards_body {P D : Type} (W : World P)
    (assign : JValue → D → D × Option TypeError) (c : VaultClient) (hc : c.baseUri ≠ "")
    (method url : String) (requestBody : Option P) (req : Request)
    (hreq : (prepare W c method url requestBody).1 = .ok req) (res : Response)
    (hok : W.Succeeds req res) (hstatus : 200 ≤ res.statusCode ∧ res.statusCode < 300) :
    request W assign (some c) method url requestBody none =
      ⟨.returned none, none,
        [.encode, .newRequest method (c.baseUri ++ url), .send req, .close]⟩ := by
  have h401 : res.statusCode ≠ 401 := by omega
  have hin : ¬ (res.statusCode < 200 ∨ res.statusCode ≥ 300) := by omega
  rw [request_answered W assign c hc method url requestBody none req hreq res hok.1 h401]
  simp [hin, readBody, closeBody, hok.2]

/-- C8 at the deletion of secret "sec-1", answered by 204 with an empty body. -/
theorem request_discards_body_witness :
    (sampleClient.baseUri ≠ "" ∧
      (prepare (answering ⟨204, "", none⟩) sampleClient "DELETE" "/secrets/sec-1" none).1 =
        .ok ⟨"DELETE", "https://vault.previder.io/secrets/sec-1", sampleHeader, "null\n"⟩ ∧
      (answering ⟨204, "", none⟩).Succeeds
        ⟨"DELETE", "https://vault.previder.io/secrets/sec-1", sampleHeader, "null\n"⟩
        ⟨204, "", none⟩ ∧
      (200 ≤ (⟨204, "", none⟩ : Response).statusCode ∧
        (⟨204, "", none⟩ : Response).statusCode < 300)) ∧
      request (answering ⟨204, "", none⟩) (assignRecord id) (some sampleClient) "DELETE"
          "/secrets/sec-1" none none =
        ⟨.returned none, none,
          [.encode, .newRequest "DELETE" "https://vault.previder.io/secrets/sec-1",
            .send ⟨"DELETE", "https://vault.previder.io/secrets/sec-1", sampleHeader, "null\n"⟩,
            .close]⟩ :=
  ⟨⟨by decide, rfl, ⟨rfl, rfl⟩, by decide⟩,
    request_discards_body (answering ⟨204, "", none⟩) (assignRecord id) sampleClient (by decide)
      "DELETE" "/secrets/sec-1" none _ rfl ⟨204, "", none⟩ ⟨rfl, rfl⟩ (by decide)⟩

/-- C4 amended: with a destination, when the transport succeeds with a status
other than 401 and the body is empty, `request` returns nil and the destination
is as it was. -/
theorem request_empty_body {P D : Type} (W : World P)
    (assign : JValue → D → D × Option TypeError) (c : VaultClient) (hc : c.baseUri ≠ "")
    (method url : String) (requestBody : Option P) (d : D) (req : Request)
    (hreq : (prepare W c method url requestBody).1 = .ok req) (res : Response)
    (hok : W.Succeeds req res) (h401 : res.statusCode ≠ 401) (hbody : res.body = "") :
    (request W assign (some c) method url requestBody (some d)).outcome = .returned none ∧
      (request W assign (some c) method url requestBody (some d)).dest = some d := by
  have hdec : decode assign res.body d = (d, some .eof) := by rw [hbody]; rfl
  rw [request_answered W assign c hc method url requestBody (some d) req hreq res hok.1 h401]
  simp [readBody, closeBody, hok.2, hdec]

/-- C4 amended, at a GET answered by 200 with an empty body. -/
theorem request_empty_body_witness :
    (sampleClient.baseUri ≠ "" ∧
      (prepare (answering ⟨200, "", none⟩) sampleClient "GET" "/environments/env-1" none).1 =
        .ok ⟨"GET", "https://vault.previder.io/environments/env-1", sampleHeader, "null\n"⟩ ∧
      (answering ⟨200, "", none⟩).Succeeds
        ⟨"GET", "https://vault.previder.io/environments/env-1", sampleHeader, "null\n"⟩
        ⟨200, "", none⟩ ∧
      (⟨200, "", none⟩ : Response).statusCode ≠ 401 ∧
      (⟨200, "", none⟩ : Response).body = "") ∧
      (request (answering ⟨200, "", none⟩) (assignRecord id) (some sampleClient) "GET"
          "/environments/env-1" none (some [("id", "old"), ("name", "old")])).outcome =
        .returned none ∧
      (request (answering ⟨200, "", none⟩) (assignRecord id) (some sampleClient) "GET"
          "/environments/env-1" none (some [("id", "old"), ("name", "old")])).dest =
        some [("id", "old"), ("name", "old")] :=
  ⟨⟨by decide, rfl, ⟨rfl, rfl⟩, by decide, rfl⟩,
    request_empty_body (answering ⟨200, "", none⟩) (assignRecord id) sampleClient (by decide)
      "GET" "/environments/env-1" none [("id", "old"), ("name", "old")] _ rfl ⟨200, "", none⟩
      ⟨rfl, rfl⟩ (by decide) rfl⟩

/-- C4 fails on the code when the empty answer has status 401: the transport
succeeded, the body is empty, and the call does not return: the process exits. -/
theorem request_empty_body_counterexample :
    (answering ⟨401, "", none⟩).Succeeds
        ⟨"GET", "https://vault.previder.io/environments/env-1", sampleHeader, "null\n"⟩
        ⟨401, "", none⟩ ∧
    request (answering ⟨401, "", none⟩) (assignRecord id) (some sampleClient) "GET"
        "/environments/env-1" none (some [("id", "old"), ("name", "old")]) =
      ⟨.exited 1, some [("id", "old"), ("name", "old")],
        [.encode, .newRequest "GET" "https://vault.previder.io/environments/env-1",
          .send ⟨"GET", "https://vault.previder.io/environments/env-1", sampleHeader,
            "null\n"⟩,
          .fatal "Unauthorized"]⟩ ∧
    (request (answering ⟨401, "", none⟩) (assignRecord id) (some sampleClient) "GET"
        "/environments/env-1" none (some [("id", "old"), ("name", "old")])).outcome ≠
      .returned none := by
  refine ⟨⟨rfl, rfl⟩, by decide, by decide⟩

/-- C5 amended: with a destination, when the transport succeeds with a status
other than 401 and the decoder's scan of the first JSON value of the body fails
(a syntax error, or the input ends inside the value, as it does for a record cut
off in the middle), `request` returns that error, a `*json.SyntaxError` or
`io.ErrUnexpectedEOF`, and the destination is as it was. -/
theorem request_malformed_body {P D : Type} (W : World P)
    (assign : JValue → D → D × Option TypeError) (c : VaultClient) (hc : c.baseUri ≠ "")
    (method url : String) (requestBody : Option P) (d : D) (req : Request)
    (hreq : (prepare W c method url requestBody).1 = .ok req) (res : Response)
    (hok : W.Succeeds req res) (h401 : res.statusCode ≠ 401) (sc : Scan JValue) (err : Error)
    (hscan : firstValue res.body = some sc) (herr : scanError sc = some err) :
    (request W assign (some c) method url requestBody (some d)).outcome =
        .returned (some err) ∧
      (err = .unexpectedEOF ∨ ∃ ctx, err = .jsonSyntax ctx) ∧
      (request W assign (some c) method url requestBody (some d)).dest = some d := by
  rw [request_answered W assign c hc method url requestBody (some d) req hreq res hok.1 h401]
  cases sc with
  | ok v rest => simp [scanError] at herr
  | exhausted => simp [scanError] at herr
  | bad ctx =>
    simp only [scanError, Option.some.injEq] at herr
    subst herr
    simp [readBody, closeBody, hok.2, decode, hscan]
  | truncated =>
    simp only [scanError, Option.some.injEq] at herr
    subst herr
    simp [readBody, closeBody, hok.2, decode, hscan]

/-- C5 amended, at a body cut off inside a value. -/
theorem request_malformed_body_witness :
    (sampleClient.baseUri ≠ "" ∧
      (prepare (answering ⟨200, "\x7b\"id\":\"env-1\",\"na", none⟩) sampleClient "GET"
          "/environments/env-1" none).1 =
        .ok ⟨"GET", "https://vault.previder.io/environments/env-1", sampleHeader, "null\n"⟩ ∧
      (answering ⟨200, "\x7b\"id\":\"env-1\",\"na", none⟩).Succeeds
        ⟨"GET", "https://vault.previder.io/environments/env-1", sampleHeader, "null\n"⟩
        ⟨200, "\x7b\"id\":\"env-1\",\"na", none⟩ ∧
      (⟨200, "\x7b\"id\":\"env-1\",\"na", none⟩ : Response).statusCode ≠ 401 ∧
      firstValue (⟨200, "\x7b\"id\":\"env-1\",\"na", none⟩ : Response).body = some .truncated ∧
      scanError .truncated = some .unexpectedEOF) ∧
      (request (answering ⟨200, "\x7b\"id\":\"env-1\",\"na", none⟩) (assignRecord id)
          (some sampleClient) "GET" "/environments/env-1" none
          (some [("id", "old"), ("name", "old")])).outcome =
        .returned (some .unexpectedEOF) :=
  ⟨⟨by decide, rfl, ⟨rfl, rfl⟩, by decide, rfl, rfl⟩,
    (request_malformed_body (answering ⟨200, "\x7b\"id\":\"env-1\",\"na", none⟩) (assignRecord id)
      sampleClient (by decide) "GET" "/environments/env-1" none [("id", "old"), ("name", "old")]
      _ rfl ⟨200, "\x7b\"id\":\"env-1\",\"na", none⟩ ⟨rfl, rfl⟩ (by decide) .truncated
      .unexpectedEOF rfl rfl).1⟩

/-- C5 fails on the code at three bodies that are not empty and not well-formed
JSON: with status 401 the process exits; a body of whitespace only is end of
stream for the decoder, and the call returns nil; a value followed by other text
is decoded, the rest is never read, and the call returns nil. -/
theorem request_malformed_body_counterexample :
    request (answering ⟨401, "\x7b\"id\":", none⟩) (assignRecord id) (some sampleClient) "GET"
        "/environments/env-1" none (some [("id", "old"), ("name", "old")]) =
      ⟨.exited 1, some [("id", "old"), ("name", "old")],
        [.encode, .newRequest "GET" "https://vault.previder.io/environments/env-1",
          .send ⟨"GET", "https://vault.previder.io/environments/env-1", sampleHeader,
            "null\n"⟩,
          .fatal "Unauthorized"]⟩ ∧
    request (answering ⟨200, " \n", none⟩) (assignRecord id) (some sampleClient) "GET"
        "/environments/env-1" none (some [("id", "old"), ("name", "old")]) =
      ⟨.returned none, some [("id", "old"), ("name", "old")],
        [.encode, .newRequest "GET" "https://vault.previder.io/environments/env-1",
          .send ⟨"GET", "https://vault.previder.io/environments/env-1", sampleHeader,
            "null\n"⟩,
          .decode, .close]⟩ ∧
    request (answering ⟨200, "\x7b\"id\":\"env-1\"\x7d ]oops", none⟩) (assignRecord id)
        (some sampleClient) "GET" "/environments/env-1" none
        (some [("id", "old"), ("name", "old")]) =
      ⟨.returned none, some [("id", "env-1"), ("name", "old")],
        [.encode, .newRequest "GET" "https://vault.previder.io/environments/env-1",
          .send ⟨"GET", "https://vault.previder.io/environments/env-1", sampleHeader,
            "null\n"⟩,
          .decode, .close]⟩ := by
  refine ⟨by decide, by decide, by decide⟩

/-- C10 fails on the code at a response with status 401: the process exits
through `log.Fatal` with the body still open, `Close` is never called. -/
theorem request_unauthorized_leaves_body_open :
    (request (answering ⟨401, "denied", none⟩) (assignRecord id) (some sampleClient) "GET"
        "/secrets/sec-1" none (some [("id", "")])).outcome = .exited 1 ∧
      Event.close ∉
        (request (answering ⟨401, "denied", none⟩) (assignRecord id) (some sampleClient) "GET"
          "/secrets/sec-1" none (some [("id", "")])).trace ∧
      (request (answering ⟨401, "denied", none⟩) (assignRecord id) (some sampleClient) "GET"
          "/secrets/sec-1" none (some [("id", "")])).trace =
        [.encode, .newRequest "GET" "https://vault.previder.io/secrets/sec-1",
          .send ⟨"GET", "https://vault.previder.io/secrets/sec-1", sampleHeader, "null\n"⟩,
          .fatal "Unauthorized"] := by
  refine ⟨by decide, by decide, by decide⟩

/-- On every path but the exit on status 401, the body of a response is closed,
once, after everything else but a `log.Fatal` for a failed close. -/
theorem request_closes_body {P D : Type} (W : World P)
    (assign : JValue → D → D × Option TypeError) (c : VaultClient) (hc : c.baseUri ≠ "")
    (method url : String) (requestBody : Option P) (responseBody : Option D) (req : Request)
    (hreq : (prepare W c method url requestBody).1 = .ok req) (res : Response)
    (hdo : W.roundTrip req = .ok res) (h401 : res.statusCode ≠ 401) :
    ((request W assign (some c) method url requestBody responseBody).trace.filter
        fun e => e = Event.close) = [Event.close] := by
  rw [request_answered W assign c hc method url requestBody responseBody req hreq res hdo h401,
    readBody_trace]
  cases responseBody <;> cases res.closeErr <;> by_cases h : res.statusCode < 200 ∨
    res.statusCode ≥ 300 <;> simp [h, List.filter]

/-! ## Construction -/

/-- A call on a client with a base URI gets past the guard: it starts by
encoding the payload, and the error it returns, if any, is not the one made with
`errors.New`. -/
theorem request_past_guard {P D : Type} (W : World P)
    (assign : JValue → D → D × Option TypeError) (c : VaultClient) (hc : c.baseUri ≠ "")
    (method url : String) (requestBody : Option P) (responseBody : Option D) :
    (∀ msg, (request W assign (some c) method url requestBody responseBody).outcome ≠
        .returned (some (.new msg))) ∧
      (request W assign (some c) method url requestBody responseBody).trace.head? =
        some .encode := by
  cases hp : (prepare W c method url requestBody).1 with
  | ok req =>
    rw [request_prepared W assign c hc method url requestBody responseBody req hp]
    cases W.roundTrip req with
    | error e => simp
    | ok res =>
      simp only
      split
      · split
        · simp
        · rw [readBody_trace]
          refine ⟨?_, by simp⟩
          intro msg
          unfold readBody closeBody decode
          cases responseBody with
          | none => cases res.closeErr <;> simp
          | some d =>
            simp only
            cases firstValue res.body with
            | none => cases res.closeErr <;> simp
            | some sc =>
              cases sc with
              | ok v rest =>
                simp only
                cases assign v d with
                | mk d1 oe => cases oe <;> cases res.closeErr <;> simp
              | bad ctx => cases res.closeErr <;> simp
              | truncated => cases res.closeErr <;> simp
              | exhausted => cases res.closeErr <;> simp
      · rw [readBody_trace]
        refine ⟨?_, by simp⟩
        intro msg
        unfold readBody closeBody decode
        cases responseBody with
        | none => cases res.closeErr <;> simp
        | some d =>
          simp only
          cases firstValue res.body with
          | none => cases res.closeErr <;> simp
          | some sc =>
            cases sc with
            | ok v rest =>
              simp only
              cases assign v d with
              | mk d1 oe => cases oe <;> cases res.closeErr <;> simp
            | bad ctx => cases res.closeErr <;> simp
            | truncated => cases res.closeErr <;> simp
            | exhausted => cases res.closeErr <;> simp
  | error e =>
    unfold request
    simp only [hc, if_false]
    unfold prepare at hp ⊢
    cases hb : encodePayload W requestBody with
    | error e1 => simp
    | ok b =>
      simp only [hb] at hp ⊢
      unfold newRequest at hp ⊢
      cases hr : W.rejectRequest (if method = "" then "GET" else method) (c.baseUri ++ url) with
      | some e2 => simp
      | none => simp [hr] at hp

/-- C9: for every base URI and token, `NewVaultClient` returns a client and no
error (and logs nothing); the client has the given token, and the given base URI
when that is not empty and "https://vault.previder.io" otherwise.  So its base
URI is never empty, also after `SetVerbose`, and a request on it never returns
the error "Previder vault client not setup": it always gets as far as encoding
the payload. -/
theorem NewVaultClient_base_uri (baseUri token : String) :
    ∃ c, NewVaultClient baseUri token = (some c, none, []) ∧
      c.token = token ∧
      c.baseUri = (if baseUri = "" then "https://vault.previder.io" else baseUri) ∧
      ∀ verbose : Bool,
        (SetVerbose c verbose).baseUri ≠ "" ∧
        ∀ (P D : Type) (W : World P) (assign : JValue → D → D × Option TypeError)
          (method url : String) (requestBody : Option P) (responseBody : Option D),
          (request W assign (some (SetVerbose c verbose)) method url requestBody
              responseBody).outcome ≠
            .returned (some (.new "Previder vault client not setup")) ∧
          (request W assign (some (SetVerbose c verbose)) method url requestBody
              responseBody).trace.head? = some .encode := by
  refine ⟨⟨if baseUri = "" then DefaultBaseUri else baseUri, token, false⟩, rfl, rfl, rfl, ?_⟩
  intro verbose
  have hne : (SetVerbose ⟨if baseUri = "" then DefaultBaseUri else baseUri, token, false⟩
      verbose).baseUri ≠ "" := by
    show (if baseUri = "" then DefaultBaseUri else baseUri) ≠ ""
    split
    · decide
    · assumption
  refine ⟨hne, ?_⟩
  intro P D W assign method url requestBody responseBody
  have h := request_past_guard W assign _ hne method url requestBody responseBody
  exact ⟨h.1 _, h.2⟩

/-! ## The scanner reads every JSON text -/

/-- The scanner's value of a hexadecimal digit. -/
theorem hexVal_of_hexDigit (c : Char) (n : Nat) (h : HexDigit c n) : hexVal c = some n := by
  have hn : n < 16 := by
    rcases h with h | h
    · exact (List.getElem?_eq_some.mp h).1
    · exact (List.getElem?_eq_some.mp h).1
  rcases h with h | h
  · interval_cases n <;> simp at h <;> subst h <;> decide
  · interval_cases n <;> simp at h <;> subst h <;> decide

/-- A character is never a surrogate code unit. -/
theorem char_not_surrogate (c : Char) : ¬ (0xD800 ≤ c.toNat ∧ c.toNat < 0xE000) := by
  have h := c.valid
  simp only [UInt32.isValidChar, Nat.isValidChar] at h
  simp only [Char.toNat]
  omega

/-- The scanner on a `\uXXXX` escape. -/
theorem scanString_hex4 (a b x d : Char) (n : Nat) (h : Hex4 a b x d n) (rest : List Char)
    (acc : List StrItem) :
    scanString .plain (Char.ofNat 92 :: Char.ofNat 117 :: a :: b :: x :: d :: rest) acc =
      scanString .plain rest (.unit n :: acc) := by
  obtain ⟨x1, x2, x3, x4, h1, h2, h3, h4, hn⟩ := h
  have e1 := hexVal_of_hexDigit a x1 h1
  have e2 := hexVal_of_hexDigit b x2 h2
  have e3 := hexVal_of_hexDigit x x3 h3
  have e4 := hexVal_of_hexDigit d x4 h4
  rw [scanString]
  simp only [show (Char.ofNat 92).toNat = 92 from rfl]
  simp only [show ¬ (92 = 34) by decide, if_false, if_true]
  rw [scanString]
  simp only [show (Char.ofNat 117).toNat = 117 from rfl, if_true]
  rw [scanString]
  simp only [e1, show (0 < 3) by decide, if_true]
  rw [scanString]
  simp only [e2, show (0 + 1 < 3) by decide, if_true]
  rw [scanString]
  simp only [e3, show (0 + 1 + 1 < 3) by decide, if_true]
  rw [scanString]
  simp only [e4, show ¬ (0 + 1 + 1 + 1 < 3) by decide, if_false]
  have : 16 * (16 * (16 * (16 * 0 + x1) + x2) + x3) + x4 = n := by omega
  rw [this]

/-- The scanner's character for a two-character escape. -/
theorem unescape_of_escape (e c : Char) (h : Escape e c) :
    unescape e = some c ∧ e.toNat ≠ 117 := by
  have hc : Char.ofNat c.toNat = c := Char.ofNat_toNat c
  simp only [Escape, List.mem_cons, Prod.mk.injEq, List.mem_singleton, List.not_mem_nil,
    or_false] at h
  rcases h with ⟨h1, h2⟩ | ⟨h1, h2⟩ | ⟨h1, h2⟩ | ⟨h1, h2⟩ | ⟨h1, h2⟩ | ⟨h1, h2⟩ | ⟨h1, h2⟩ |
    ⟨h1, h2⟩
  all_goals
    have he : Char.ofNat e.toNat = e := Char.ofNat_toNat e
    rw [h1] at he
    rw [h2] at hc
    subst he
    subst hc
    exact ⟨by decide, by decide⟩

/-- A code unit outside the surrogate range is a character by itself. -/
theorem decodeItems_unit_plain (n : Nat) (hn : ¬ (0xD800 ≤ n ∧ n < 0xE000))
    (rest : List StrItem) : decodeItems (.unit n :: rest) = Char.ofNat n :: decodeItems rest := by
  cases rest with
  | nil => simp [decodeItems, hn]
  | cons i is => cases i <;> simp [decodeItems, hn]

/-- A high and a low surrogate are one character. -/
theorem decodeItems_pair (c : Char) (hc : 65536 ≤ c.toNat) (rest : List StrItem) :
    decodeItems (.unit (55296 + (c.toNat - 65536) / 1024) ::
        .unit (56320 + (c.toNat - 65536) % 1024) :: rest) = c :: decodeItems rest := by
  have hv := c.valid
  simp only [UInt32.isValidChar, Nat.isValidChar] at hv
  have hlt : c.toNat < 1114112 := by
    simp only [Char.toNat]
    omega
  have h1 : 0xD800 ≤ 55296 + (c.toNat - 65536) / 1024 ∧
      55296 + (c.toNat - 65536) / 1024 < 0xE000 := by omega
  have h2 : 55296 + (c.toNat - 65536) / 1024 < 0xDC00 ∧
      0xDC00 ≤ 56320 + (c.toNat - 65536) % 1024 ∧
      56320 + (c.toNat - 65536) % 1024 < 0xE000 := by omega
  have h3 : (55296 + (c.toNat - 65536) / 1024 - 0xD800) * 1024 +
      (56320 + (c.toNat - 65536) % 1024 - 0xDC00) + 0x10000 = c.toNat := by omega
  rw [decodeItems]
  simp only [h1, h2, and_self, if_true, h3, Char.ofNat_toNat]

/-- The scanner reads the text of a string literal and gives back its
characters. -/
theorem scanString_stringText (s t : List Char) (h : StringText s t) :
    ∀ (acc : List StrItem) (rest : List Char), ∃ items,
      scanString .plain (t ++ Char.ofNat 34 :: rest) acc = .ok (acc.reverse ++ items) rest ∧
      decodeItems items = s := by
  induction h with
  | nil =>
    intro acc rest
    refine ⟨[], ?_, rfl⟩
    simp only [List.nil_append, List.append_nil]
    rw [scanString]
    simp only [show (Char.ofNat 34).toNat = 34 from rfl, if_true]
  | raw c s t h1 h2 h3 _ ih =>
    intro acc rest
    obtain ⟨items, hs, hd⟩ := ih (.char c :: acc) rest
    refine ⟨.char c :: items, ?_, ?_⟩
    · simp only [List.cons_append]
      rw [scanString]
      simp only [h2, h3, show ¬ c.toNat < 32 by omega, if_false, hs]
      simp
    · simp [decodeItems, hd]
  | escape e c s t he _ ih =>
    intro acc rest
    obtain ⟨items, hs, hd⟩ := ih (.char c :: acc) rest
    obtain ⟨hu, h117⟩ := unescape_of_escape e c he
    refine ⟨.char c :: items, ?_, ?_⟩
    · simp only [List.cons_append]
      rw [scanString]
      simp only [show (Char.ofNat 92).toNat = 92 from rfl]
      simp only [show ¬ (92 = 34) by decide, if_false, if_true]
      rw [scanString]
      simp only [h117, if_false, hu, hs]
      simp
    · simp [decodeItems, hd]
  | unicode a b x d c s t hx _ ih =>
    intro acc rest
    obtain ⟨items, hs, hd⟩ := ih (.unit c.toNat :: acc) rest
    refine ⟨.unit c.toNat :: items, ?_, ?_⟩
    · simp only [List.cons_append]
      rw [scanString_hex4 a b x d c.toNat hx, hs]
      simp
    · rw [decodeItems_unit_plain _ (char_not_surrogate c), Char.ofNat_toNat, hd]
  | pair a b x d a2 b2 x2 d2 c s t hc hx hx2 _ ih =>
    intro acc rest
    obtain ⟨items, hs, hd⟩ := ih (.unit (56320 + (c.toNat - 65536) % 1024) ::
      .unit (55296 + (c.toNat - 65536) / 1024) :: acc) rest
    refine ⟨.unit (55296 + (c.toNat - 65536) / 1024) ::
      .unit (56320 + (c.toNat - 65536) % 1024) :: items, ?_, ?_⟩
    · simp only [List.cons_append]
      rw [scanString_hex4 a b x d _ hx, scanString_hex4 a2 b2 x2 d2 _ hx2, hs]
      simp
    · rw [decodeItems_pair c hc, hd]

/-- The scanner's test for a decimal digit. -/
theorem isDigit_iff (c : Char) : isDigit c = true ↔ 48 ≤ c.toNat ∧ c.toNat ≤ 57 := by
  simp [isDigit]

/-- What the scanner sees at the head of terminated input. -/
theorem terminated_head (c : Char) (r : List Char) (h : Terminated (c :: r)) :
    isDigit c = false ∧ c.toNat ≠ 46 ∧ ¬ (c.toNat = 101 ∨ c.toNat = 69) := by
  obtain ⟨h1, h2, h3, h4, -, -⟩ := h c r rfl
  refine ⟨?_, h2, ?_⟩
  · cases hd : isDigit c with
    | false => rfl
    | true => exact absurd ((isDigit_iff c).mp hd) h1
  · omega

/-- The digits of an exponent. -/
theorem scanNumber_expDigits (ds : List Char) :
    ∀ (acc rest : List Char), Digits ds → Terminated rest →
      scanNumber .expDigits (ds ++ rest) acc = .ok (String.mk (acc.reverse ++ ds)) rest := by
  induction ds with
  | nil =>
    intro acc rest _ ht
    cases rest with
    | nil => simp [scanNumber, NumState.complete]
    | cons c r =>
      obtain ⟨h1, -, -⟩ := terminated_head c r ht
      simp [scanNumber, h1]
  | cons d ds ih =>
    intro acc rest hd ht
    have hdig : isDigit d = true := (isDigit_iff d).mpr (hd d (List.mem_cons_self _ _))
    simp only [List.cons_append]
    rw [scanNumber]
    simp only [hdig, if_true]
    rw [ih (d :: acc) rest (fun c hc => hd c (List.mem_cons_of_mem _ hc)) ht]
    simp

/-- An exponent after its letter: an optional sign and digits. -/
theorem scanNumber_exp (sg : List Char) (d : Char) (ds acc rest : List Char)
    (hsg : sg = [] ∨ sg = [Char.ofNat 43] ∨ sg = [Char.ofNat 45]) (hd : Digits (d :: ds))
    (ht : Terminated rest) :
    scanNumber .exp (sg ++ d :: (ds ++ rest)) acc =
      .ok (String.mk (acc.reverse ++ (sg ++ d :: ds))) rest := by
  have hdig : isDigit d = true := (isDigit_iff d).mpr (hd d (List.mem_cons_self _ _))
  have hdr := (isDigit_iff d).mp hdig
  have hds : Digits ds := fun c hc => hd c (List.mem_cons_of_mem _ hc)
  rcases hsg with h | h | h
  · subst h
    simp only [List.nil_append]
    rw [scanNumber]
    simp only [show ¬ (d.toNat = 43 ∨ d.toNat = 45) by omega, if_false, hdig, if_true]
    rw [scanNumber_expDigits ds _ rest hds ht]
    simp
  · subst h
    simp only [List.cons_append, List.nil_append]
    rw [scanNumber]
    simp only [show (Char.ofNat 43).toNat = 43 from rfl, true_or, if_true]
    rw [scanNumber]
    simp only [hdig, if_true]
    rw [scanNumber_expDigits ds _ rest hds ht]
    simp
  · subst h
    simp only [List.cons_append, List.nil_append]
    rw [scanNumber]
    simp only [show (Char.ofNat 45).toNat = 45 from rfl, or_true, if_true]
    rw [scanNumber]
    simp only [hdig, if_true]
    rw [scanNumber_expDigits ds _ rest hds ht]
    simp

/-- The exponent, or the end of the number, after the digits of a fraction. -/
theorem scanNumber_frac_exp (exp acc rest : List Char) (he : ExpText exp)
    (ht : Terminated rest) :
    scanNumber .frac (exp ++ rest) acc = .ok (String.mk (acc.reverse ++ exp)) rest := by
  rcases he with h | ⟨e, sg, d, ds, h, hE, hsg, hd⟩
  · subst h
    cases rest with
    | nil => simp [scanNumber, NumState.complete]
    | cons c r =>
      obtain ⟨h1, -, h3⟩ := terminated_head c r ht
      simp [scanNumber, h1, h3]
  · subst h
    have hnd : isDigit e = false := by
      cases hx : isDigit e with
      | false => rfl
      | true => have := (isDigit_iff e).mp hx; omega
    simp only [List.cons_append, List.append_assoc]
    rw [scanNumber]
    simp only [hnd, hE, if_true, Bool.false_eq_true, if_false]
    rw [scanNumber_exp sg d ds _ rest hsg hd ht]
    simp

/-- The exponent, or the end of the number, after the integer part `0`. -/
theorem scanNumber_zero_exp (exp acc rest : List Char) (he : ExpText exp)
    (ht : Terminated rest) :
    scanNumber .zero (exp ++ rest) acc = .ok (String.mk (acc.reverse ++ exp)) rest := by
  rcases he with h | ⟨e, sg, d, ds, h, hE, hsg, hd⟩
  · subst h
    cases rest with
    | nil => simp [scanNumber, NumState.complete]
    | cons c r =>
      obtain ⟨-, h2, h3⟩ := terminated_head c r ht
      simp [scanNumber, h2, h3]
  · subst h
    simp only [List.cons_append, List.append_assoc]
    rw [scanNumber]
    simp only [show ¬ e.toNat = 46 by omega, hE, if_true, if_false]
    rw [scanNumber_exp sg d ds _ rest hsg hd ht]
    simp

/-- The exponent, or the end of the number, after the digits of the integer
part. -/
theorem scanNumber_int_exp (exp acc rest : List Char) (he : ExpText exp)
    (ht : Terminated rest) :
    scanNumber .int (exp ++ rest) acc = .ok (String.mk (acc.reverse ++ exp)) rest := by
  rcases he with h | ⟨e, sg, d, ds, h, hE, hsg, hd⟩
  · subst h
    cases rest with
    | nil => simp [scanNumber, NumState.complete]
    | cons c r =>
      obtain ⟨h1, h2, h3⟩ := terminated_head c r ht
      simp [scanNumber, h1, h2, h3]
  · subst h
    have hnd : isDigit e = false := by
      cases hx : isDigit e with
      | false => rfl
      | true => have := (isDigit_iff e).mp hx; omega
    simp only [List.cons_append, List.append_assoc]
    rw [scanNumber]
    simp only [hnd, show ¬ e.toNat = 46 by omega, hE, if_true, Bool.false_eq_true, if_false]
    rw [scanNumber_exp sg d ds _ rest hsg hd ht]
    simp

/-- The digits of a fraction, then the exponent. -/
theorem scanNumber_frac (ds : List Char) :
    ∀ (exp acc rest : List Char), Digits ds → ExpText exp → Terminated rest →
      scanNumber .frac (ds ++ (exp ++ rest)) acc =
        .ok (String.mk (acc.reverse ++ (ds ++ exp))) rest := by
  induction ds with
  | nil =>
    intro exp acc rest _ he ht
    simpa using scanNumber_frac_exp exp acc rest he ht
  | cons d ds ih =>
    intro exp acc rest hd he ht
    have hdig : isDigit d = true := (isDigit_iff d).mpr (hd d (List.mem_cons_self _ _))
    simp only [List.cons_append]
    rw [scanNumber]
    simp only [hdig, if_true]
    rw [ih exp (d :: acc) rest (fun c hc => hd c (List.mem_cons_of_mem _ hc)) he ht]
    simp

/-- A fraction after its point. -/
theorem scanNumber_dot (d : Char) (ds exp acc rest : List Char) (hd : Digits (d :: ds))
    (he : ExpText exp) (ht : Terminated rest) :
    scanNumber .dot (d :: (ds ++ (exp ++ rest))) acc =
      .ok (String.mk (acc.reverse ++ (d :: ds ++ exp))) rest := by
  have hdig : isDigit d = true := (isDigit_iff d).mpr (hd d (List.mem_cons_self _ _))
  rw [scanNumber]
  simp only [hdig, if_true]
  rw [scanNumber_frac ds exp (d :: acc) rest (fun c hc => hd c (List.mem_cons_of_mem _ hc)) he ht]
  simp

/-- Fraction and exponent after the integer part `0`. -/
theorem scanNumber_zero (frac exp acc rest : List Char) (hf : FracText frac)
    (he : ExpText exp) (ht : Terminated rest) :
    scanNumber .zero (frac ++ (exp ++ rest)) acc =
      .ok (String.mk (acc.reverse ++ (frac ++ exp))) rest := by
  rcases hf with h | ⟨d, ds, h, hd⟩
  · subst h
    simpa using scanNumber_zero_exp exp acc rest he ht
  · subst h
    simp only [List.cons_append, List.append_assoc]
    rw [scanNumber]
    simp only [show (Char.ofNat 46).toNat = 46 from rfl, if_true]
    rw [scanNumber_dot d ds exp _ rest hd he ht]
    simp

/-- Further digits of the integer part, then fraction and exponent. -/
theorem scanNumber_int (ds : List Char) :
    ∀ (frac exp acc rest : List Char), Digits ds → FracText frac → ExpText exp →
      Terminated rest →
      scanNumber .int (ds ++ (frac ++ (exp ++ rest))) acc =
        .ok (String.mk (acc.reverse ++ (ds ++ (frac ++ exp)))) rest := by
  induction ds with
  | nil =>
    intro frac exp acc rest _ hf he ht
    rcases hf with h | ⟨d, dd, h, hd⟩
    · subst h
      simpa using scanNumber_int_exp exp acc rest he ht
    · subst h
      simp only [List.nil_append, List.cons_append, List.append_assoc]
      rw [scanNumber]
      simp only [show isDigit (Char.ofNat 46) = false by decide,
        show (Char.ofNat 46).toNat = 46 from rfl, if_true, Bool.false_eq_true, if_false]
      rw [scanNumber_dot d dd exp _ rest hd he ht]
      simp
  | cons d ds ih =>
    intro frac exp acc rest hd hf he ht
    have hdig : isDigit d = true := (isDigit_iff d).mpr (hd d (List.mem_cons_self _ _))
    simp only [List.cons_append]
    rw [scanNumber]
    simp only [hdig, if_true]
    rw [ih frac exp (d :: acc) rest (fun c hc => hd c (List.mem_cons_of_mem _ hc)) hf he ht]
    simp

/-- The integer part, fraction and exponent after a minus sign or at the start
of a number. -/
theorem scanNumber_unsigned (int frac exp acc rest : List Char)
    (hi : IntText int) (hf : FracText frac) (he : ExpText exp) (ht : Terminated rest) :
    scanNumber .neg (int ++ (frac ++ (exp ++ rest))) acc =
      .ok (String.mk (acc.reverse ++ (int ++ (frac ++ exp)))) rest := by
  rcases hi with h | ⟨d, ds, h, h1, h2, hd⟩
  · subst h
    simp only [List.cons_append, List.nil_append]
    rw [scanNumber]
    simp only [show (Char.ofNat 48).toNat = 48 from rfl, if_true]
    rw [scanNumber_zero frac exp _ rest hf he ht]
    simp
  · subst h
    have hdig : isDigit d = true := (isDigit_iff d).mpr ⟨by omega, h2⟩
    simp only [List.cons_append]
    rw [scanNumber]
    simp only [show ¬ d.toNat = 48 by omega, hdig, if_true, if_false]
    rw [scanNumber_int ds frac exp _ rest hd hf he ht]
    simp

/-- Whitespace of the grammar is whitespace for the scanner. -/
theorem skipSpace_blank (w cs : List Char) (hw : Blank w) : skipSpace (w ++ cs) = skipSpace cs := by
  induction w with
  | nil => rfl
  | cons c w ih =>
    have hc : isSpace c = true := by
      have := hw c (List.mem_cons_self _ _)
      simp only [isSpace, Bool.or_eq_true, decide_eq_true_eq]
      omega
    simp only [List.cons_append, skipSpace, hc, if_true]
    exact ih fun d hd => hw d (List.mem_cons_of_mem _ hd)

/-- Skipping whitespace twice is skipping it once. -/
theorem skipSpace_idem (cs : List Char) : skipSpace (skipSpace cs) = skipSpace cs := by
  induction cs with
  | nil => rfl
  | cons c cs ih =>
    simp only [skipSpace]
    split
    · exact ih
    · rename_i h
      simp [skipSpace, h]

/-- The scanner does not see whitespace that was skipped before. -/
theorem parse_skipSpace (fuel depth : Nat) (e : Expect) (cs : List Char) :
    parse fuel depth e (skipSpace cs) = parse fuel depth e cs := by
  cases fuel with
  | zero => simp [parse]
  | succ f => cases e <;> simp only [parse, skipSpace_idem]

/-- The scanner does not see whitespace before what it expects. -/
theorem parse_blank (fuel depth : Nat) (e : Expect) (w cs : List Char) (hw : Blank w) :
    parse fuel depth e (w ++ cs) = parse fuel depth e cs := by
  rw [← parse_skipSpace fuel depth e (w ++ cs), skipSpace_blank w cs hw, parse_skipSpace]

/-- Whitespace, a closing bracket or brace, or a comma ends a number. -/
theorem terminated_of_head (c : Char) (r : List Char)
    (h : c.toNat ∈ [32, 9, 10, 13, 44, 93, 125]) : Terminated (c :: r) := by
  intro d r2 hd
  simp only [List.cons.injEq] at hd
  rw [← hd.1]
  simp only [List.mem_cons, List.mem_singleton, List.not_mem_nil, or_false] at h
  omega

/-- The end of the input ends a number. -/
theorem terminated_nil : Terminated [] := by
  intro c r h
  cases h

/-- Whitespace followed by a terminator ends a number. -/
theorem terminated_blank (w : List Char) (c : Char) (r : List Char) (hw : Blank w)
    (h : c.toNat ∈ [32, 9, 10, 13, 44, 93, 125]) : Terminated (w ++ c :: r) := by
  cases w with
  | nil => exact terminated_of_head c r h
  | cons d w =>
    apply terminated_of_head
    have := hw d (List.mem_cons_self _ _)
    simp only [List.mem_cons, List.mem_singleton, List.not_mem_nil, or_false]
    omega

/-- The text of a value starts with a character that is neither whitespace nor a
closing bracket or brace. -/
theorem jsonText_value_head (j : JValue) (h : Nat) (t : List Char)
    (ht : JsonText (.value j) h t) :
    ∃ c r, t = c :: r ∧ isSpace c = false ∧ c.toNat ≠ 93 ∧ c.toNat ≠ 125 := by
  cases ht with
  | null => exact ⟨_, _, rfl, by decide, by decide, by decide⟩
  | true => exact ⟨_, _, rfl, by decide, by decide, by decide⟩
  | false => exact ⟨_, _, rfl, by decide, by decide, by decide⟩
  | string s t hs => exact ⟨_, _, rfl, by decide, by decide, by decide⟩
  | emptyArray w hw => exact ⟨_, _, rfl, by decide, by decide, by decide⟩
  | array js h t he => exact ⟨_, _, rfl, by decide, by decide, by decide⟩
  | emptyObject w hw => exact ⟨_, _, rfl, by decide, by decide, by decide⟩
  | object ms h t hm => exact ⟨_, _, rfl, by decide, by decide, by decide⟩
  | number t hn =>
    obtain ⟨sign, int, frac, exp, rfl, hs, hi, -, -⟩ := hn
    rcases hs with hs | hs
    · subst hs
      rcases hi with hi | ⟨d, ds, hi, h1, h2, -⟩
      · subst hi
        exact ⟨_, _, rfl, by decide, by decide, by decide⟩
      · subst hi
        refine ⟨d, _, rfl, ?_, by omega, by omega⟩
        simp only [isSpace, Bool.or_eq_false_iff, decide_eq_false_iff_not]
        omega
    · subst hs
      exact ⟨_, _, rfl, by decide, by decide, by decide⟩

/-- The scanner reads the text of a number. -/
theorem parse_numberText (t : List Char) (hn : NumberText t) (fuel depth : Nat)
    (rest : List Char) (ht : Terminated rest) :
    parse (fuel + 1) depth .value (t ++ rest) = .ok (.number (String.mk t)) rest := by
  obtain ⟨sign, int, frac, exp, rfl, hs, hi, hf, he⟩ := hn
  rcases hs with hs | hs
  · subst hs
    rcases hi with hi | ⟨d, ds, hi, h1, h2, hd⟩
    · subst hi
      simp only [List.nil_append, List.cons_append, List.append_assoc]
      rw [parse, skipSpace_cons _ _ (by decide)]
      simp only [show (Char.ofNat 48).toNat = 48 from rfl]
      simp only [show ¬ (48 = 123) by decide, show ¬ (48 = 91) by decide,
        show ¬ (48 = 34) by decide, show ¬ (48 = 45) by decide, if_false, if_true]
      rw [scanNumber_zero frac exp _ rest hf he ht]
      simp
    · subst hi
      have hsp : isSpace d = false := by
        simp only [isSpace, Bool.or_eq_false_iff, decide_eq_false_iff_not]
        omega
      have hdig : isDigit d = true := (isDigit_iff d).mpr ⟨by omega, h2⟩
      simp only [List.nil_append, List.cons_append, List.append_assoc]
      rw [parse, skipSpace_cons _ _ hsp]
      simp only [show ¬ d.toNat = 123 by omega, show ¬ d.toNat = 91 by omega,
        show ¬ d.toNat = 34 by omega, show ¬ d.toNat = 45 by omega,
        show ¬ d.toNat = 48 by omega, hdig, if_false, if_true]
      rw [scanNumber_int ds frac exp _ rest hd hf he ht]
      simp
  · subst hs
    simp only [List.cons_append, List.nil_append, List.append_assoc]
    rw [parse, skipSpace_cons _ _ (by decide)]
    simp only [show (Char.ofNat 45).toNat = 45 from rfl]
    simp only [show ¬ (45 = 123) by decide, show ¬ (45 = 91) by decide,
      show ¬ (45 = 34) by decide, if_false, if_true]
    rw [scanNumber_unsigned int frac exp _ rest hi hf he ht]
    simp

/-- The scanner reads the text of a string literal where a value is expected. -/
theorem parse_stringText (s t : List Char) (hs : StringText s t) (fuel depth : Nat)
    (rest : List Char) :
    parse (fuel + 1) depth .value (Char.ofNat 34 :: (t ++ Char.ofNat 34 :: rest)) =
      .ok (.string (String.mk s)) rest := by
  obtain ⟨items, h1, h2⟩ := scanString_stringText s t hs [] rest
  rw [parse, skipSpace_cons _ _ (by decide)]
  simp only [show (Char.ofNat 34).toNat = 34 from rfl]
  simp only [show ¬ (34 = 123) by decide, show ¬ (34 = 91) by decide, if_false, if_true, h1]
  simp [h2]

/-- The text of the elements of an array starts, after whitespace, with the
first character of a value. -/
theorem jsonText_elems_head (js : List JValue) (h : Nat) (t : List Char)
    (ht : JsonText (.elems js) h t) (rest : List Char) :
    ∃ c r, skipSpace (t ++ rest) = c :: r ∧ c.toNat ≠ 93 := by
  cases ht with
  | lastElem j h w1 t w2 hw1 hv hw2 =>
    obtain ⟨c, r, rfl, hsp, h93, -⟩ := jsonText_value_head j h t hv
    refine ⟨c, r ++ (w2 ++ rest), ?_, h93⟩
    simp only [List.append_assoc, List.cons_append]
    rw [skipSpace_blank w1 _ hw1, skipSpace_cons _ _ hsp]
  | elem j js h1 h2 w1 t w2 t2 hw1 hv hw2 he =>
    obtain ⟨c, r, rfl, hsp, h93, -⟩ := jsonText_value_head j h1 t hv
    refine ⟨c, r ++ (w2 ++ Char.ofNat 44 :: (t2 ++ rest)), ?_, h93⟩
    simp only [List.append_assoc, List.cons_append]
    rw [skipSpace_blank w1 _ hw1, skipSpace_cons _ _ hsp]

/-- The text of the members of an object starts, after whitespace, with the quote
of a key. -/
theorem jsonText_members_head (ms : List (String × JValue)) (h : Nat) (t : List Char)
    (ht : JsonText (.members ms) h t) (rest : List Char) :
    ∃ r, skipSpace (t ++ rest) = Char.ofNat 34 :: r := by
  cases ht with
  | lastMember k j h w1 kt w2 w3 t w4 hw1 hk hw2 hw3 hv hw4 =>
    simp only [List.append_assoc, List.cons_append]
    rw [skipSpace_blank w1 _ hw1, skipSpace_cons _ _ (by decide)]
    exact ⟨_, rfl⟩
  | member k j ms h1 h2 w1 kt w2 w3 t w4 t2 hw1 hk hw2 hw3 hv hw4 hm =>
    simp only [List.append_assoc, List.cons_append]
    rw [skipSpace_blank w1 _ hw1, skipSpace_cons _ _ (by decide)]
    exact ⟨_, rfl⟩

/-- The scanner on a key, the colon and the value of a member. -/
theorem parse_key_value (fuel depth : Nat) (acc : List (String × JValue)) (k kt w2 w3 t : List Char)
    (j : JValue) (rest : List Char) (hk : StringText k kt) (hw2 : Blank w2) (hw3 : Blank w3)
    (hv : parse fuel depth .value (t ++ rest) = .ok j rest) :
    parse (fuel + 1) depth (.key acc)
        (Char.ofNat 34 :: (kt ++ Char.ofNat 34 :: (w2 ++ Char.ofNat 58 :: (w3 ++ (t ++ rest))))) =
      parse fuel depth (.afterMember (acc ++ [(String.mk k, j)])) rest := by
  obtain ⟨items, h1, h2⟩ := scanString_stringText k kt hk []
    (w2 ++ Char.ofNat 58 :: (w3 ++ (t ++ rest)))
  rw [parse, skipSpace_cons _ _ (by decide)]
  simp only [show (Char.ofNat 34).toNat = 34 from rfl, ne_eq, not_true_eq_false, if_false, h1]
  rw [skipSpace_blank w2 _ hw2, skipSpace_cons _ _ (by decide)]
  simp only [show (Char.ofNat 58).toNat = 58 from rfl, not_true_eq_false, if_false]
  rw [parse_blank fuel depth .value w3 _ hw3, hv]
  simp [h2]

/-- The scanner reads every JSON text, of whatever layout, and finds the value
the text stands for. -/
theorem jsonText_reads (n : JNode) (h : Nat) (t : List Char) (ht : JsonText n h t) :
    Reads n h t := by
  induction ht with
  | null =>
    intro fuel depth rest hf _ _
    obtain ⟨f, rfl⟩ : ∃ f, fuel = f + 1 := ⟨fuel - 1, by omega⟩
    rfl
  | true =>
    intro fuel depth rest hf _ _
    obtain ⟨f, rfl⟩ : ∃ f, fuel = f + 1 := ⟨fuel - 1, by omega⟩
    rfl
  | false =>
    intro fuel depth rest hf _ _
    obtain ⟨f, rfl⟩ : ∃ f, fuel = f + 1 := ⟨fuel - 1, by omega⟩
    rfl
  | number t hn =>
    intro fuel depth rest hf _ hterm
    obtain ⟨f, rfl⟩ : ∃ f, fuel = f + 1 := ⟨fuel - 1, by omega⟩
    exact parse_numberText t hn f depth rest hterm
  | string s t hs =>
    intro fuel depth rest hf _ _
    obtain ⟨f, rfl⟩ : ∃ f, fuel = f + 1 := ⟨fuel - 1, by omega⟩
    have := parse_stringText s t hs f depth rest
    simpa using this
  | emptyArray w hw =>
    intro fuel depth rest hf hd _
    obtain ⟨f, rfl⟩ : ∃ f, fuel = f + 1 := ⟨fuel - 1, by omega⟩
    have hdepth : ¬ maxNestingDepth ≤ depth := by omega
    simp only [List.cons_append, List.append_assoc, List.nil_append]
    rw [parse, skipSpace_cons _ _ (by decide)]
    simp only [show (Char.ofNat 91).toNat = 91 from rfl]
    simp only [show ¬ (91 = 123) by decide, if_false, if_true, hdepth]
    rw [skipSpace_blank w _ hw, skipSpace_cons _ _ (by decide)]
    simp only [show (Char.ofNat 93).toNat = 93 from rfl, if_true]
  | emptyObject w hw =>
    intro fuel depth rest hf hd _
    obtain ⟨f, rfl⟩ : ∃ f, fuel = f + 1 := ⟨fuel - 1, by omega⟩
    have hdepth : ¬ maxNestingDepth ≤ depth := by omega
    simp only [List.cons_append, List.append_assoc, List.nil_append]
    rw [parse, skipSpace_cons _ _ (by decide)]
    simp only [show (Char.ofNat 123).toNat = 123 from rfl, if_true, hdepth, if_false]
    rw [skipSpace_blank w _ hw, skipSpace_cons _ _ (by decide)]
    simp only [show (Char.ofNat 125).toNat = 125 from rfl, if_true]
  | array js h t he ih =>
    intro fuel depth rest hf hd _
    obtain ⟨f, rfl⟩ : ∃ f, fuel = f + 1 := ⟨fuel - 1, by omega⟩
    have hdepth : ¬ maxNestingDepth ≤ depth := by omega
    simp only [List.cons_append, List.append_assoc, List.nil_append, List.length_cons] at hf ⊢
    obtain ⟨c1, r1, hsk, h93⟩ := jsonText_elems_head js h t he (Char.ofNat 93 :: rest)
    obtain ⟨j0, r0, hp1, hp2⟩ := ih f (depth + 1) [] rest (by omega) (by omega)
    have hp : parse f (depth + 1) .value (c1 :: r1) = .ok j0 r0 := by
      rw [← hsk, parse_skipSpace]; exact hp1
    rw [parse, skipSpace_cons _ _ (by decide)]
    simp only [show (Char.ofNat 91).toNat = 91 from rfl]
    simp only [show ¬ (91 = 123) by decide, if_false, if_true, hdepth, hsk, h93, hp]
    simpa using hp2
  | object ms h t hm ih =>
    intro fuel depth rest hf hd _
    obtain ⟨f, rfl⟩ : ∃ f, fuel = f + 1 := ⟨fuel - 1, by omega⟩
    have hdepth : ¬ maxNestingDepth ≤ depth := by omega
    simp only [List.cons_append, List.append_assoc, List.nil_append, List.length_cons] at hf ⊢
    obtain ⟨r1, hsk⟩ := jsonText_members_head ms h t hm (Char.ofNat 125 :: rest)
    have hp1 := ih f (depth + 1) [] rest (by omega) (by omega)
    have hp : parse f (depth + 1) (.key []) (Char.ofNat 34 :: r1) =
        .ok (.object ([] ++ ms)) rest := by
      rw [← hsk, parse_skipSpace]; exact hp1
    rw [parse, skipSpace_cons _ _ (by decide)]
    simp only [show (Char.ofNat 123).toNat = 123 from rfl, if_true, hdepth, if_false, hsk]
    simp only [show (Char.ofNat 34).toNat = 34 from rfl, show ¬ (34 = 125) by decide, if_false,
      hp, List.nil_append]
  | lastElem j h w1 t w2 hw1 hv hw2 ih =>
    intro fuel depth acc rest hf hd
    obtain ⟨f, rfl⟩ : ∃ f, fuel = f + 1 := ⟨fuel - 1, by omega⟩
    simp only [List.append_assoc, List.length_append, List.length_cons] at hf ⊢
    refine ⟨j, w2 ++ Char.ofNat 93 :: rest, ?_, ?_⟩
    · rw [parse_blank _ _ _ w1 _ hw1]
      exact ih (f + 1) depth _ (by simp only [List.length_append, List.length_cons]; omega) hd
        (terminated_blank w2 _ rest hw2 (by decide))
    · rw [parse_blank _ _ _ w2 _ hw2, parse, skipSpace_cons _ _ (by decide)]
      simp only [show (Char.ofNat 93).toNat = 93 from rfl]
      simp only [show ¬ (93 = 44) by decide, if_false, if_true]
  | elem j js h1 h2 w1 t w2 t2 hw1 hv hw2 he ih1 ih2 =>
    intro fuel depth acc rest hf hd
    obtain ⟨f, rfl⟩ : ∃ f, fuel = f + 1 := ⟨fuel - 1, by omega⟩
    have hm1 := Nat.le_max_left h1 h2
    have hm2 := Nat.le_max_right h1 h2
    simp only [List.append_assoc, List.cons_append, List.length_append, List.length_cons]
      at hf ⊢
    refine ⟨j, w2 ++ Char.ofNat 44 :: (t2 ++ Char.ofNat 93 :: rest), ?_, ?_⟩
    · rw [parse_blank _ _ _ w1 _ hw1]
      exact ih1 (f + 1) depth _ (by simp only [List.length_append, List.length_cons]; omega)
        (by omega) (terminated_blank w2 _ _ hw2 (by decide))
    · obtain ⟨j0, r0, hp1, hp2⟩ := ih2 f depth (acc ++ [j]) rest
        (by simp only [List.length_append, List.length_cons]; omega) (by omega)
      rw [parse_blank _ _ _ w2 _ hw2, parse, skipSpace_cons _ _ (by decide)]
      simp only [show (Char.ofNat 44).toNat = 44 from rfl, if_true, hp1]
      simpa using hp2
  | lastMember k j h w1 kt w2 w3 t w4 hw1 hk hw2 hw3 hv hw4 ih =>
    intro fuel depth acc rest hf hd
    simp only [List.append_assoc, List.cons_append, List.length_append, List.length_cons]
      at hf ⊢
    obtain ⟨f, rfl⟩ : ∃ f, fuel = f + 2 := ⟨fuel - 2, by omega⟩
    have hval := ih (f + 1) depth (w4 ++ Char.ofNat 125 :: rest)
      (by simp only [List.length_append, List.length_cons]; omega) hd
      (terminated_blank w4 _ rest hw4 (by decide))
    rw [parse_blank _ _ _ w1 _ hw1, parse_key_value (f + 1) depth acc k kt w2 w3 t j _ hk hw2 hw3 hval,
      parse_blank _ _ _ w4 _ hw4, parse, skipSpace_cons _ _ (by decide)]
    simp only [show (Char.ofNat 125).toNat = 125 from rfl]
    simp only [show ¬ (125 = 44) by decide, if_false, if_true]
  | member k j ms h1 h2 w1 kt w2 w3 t w4 t2 hw1 hk hw2 hw3 hv hw4 hm ih1 ih2 =>
    intro fuel depth acc rest hf hd
    have hm1 := Nat.le_max_left h1 h2
    have hm2 := Nat.le_max_right h1 h2
    simp only [List.append_assoc, List.cons_append, List.length_append, List.length_cons]
      at hf ⊢
    obtain ⟨f, rfl⟩ : ∃ f, fuel = f + 2 := ⟨fuel - 2, by omega⟩
    have hval := ih1 (f + 1) depth (w4 ++ Char.ofNat 44 :: (t2 ++ Char.ofNat 125 :: rest))
      (by simp only [List.length_append, List.length_cons]; omega) (by omega)
      (terminated_blank w4 _ _ hw4 (by decide))
    have hrest := ih2 f depth (acc ++ [(String.mk k, j)]) rest
      (by simp only [List.length_append, List.length_cons]; omega) (by omega)
    rw [parse_blank _ _ _ w1 _ hw1, parse_key_value (f + 1) depth acc k kt w2 w3 t j _ hk hw2 hw3 hval,
      parse_blank _ _ _ w4 _ hw4, parse, skipSpace_cons _ _ (by decide)]
    simp only [show (Char.ofNat 44).toNat = 44 from rfl, if_true, hrest]
    simp

/-- The decoder finds the value of a JSON text that is nested no deeper than the
scanner allows, whatever whitespace stands before and after it. -/
theorem firstValue_jsonText (body : String) (j : JValue) (h : Nat) (lead t trail : List Char)
    (hbody : body.data = lead ++ (t ++ trail)) (hlead : Blank lead) (htrail : Blank trail)
    (ht : JsonText (.value j) h t) (hh : h ≤ maxNestingDepth) :
    firstValue body = some (.ok j trail) := by
  obtain ⟨c, r, rfl, hsp, -, -⟩ := jsonText_value_head j h _ ht
  have hterm : Terminated trail := by
    cases trail with
    | nil => exact terminated_nil
    | cons d ds =>
      apply terminated_of_head
      have := htrail d (List.mem_cons_self _ _)
      simp only [List.mem_cons, List.mem_singleton, List.not_mem_nil, or_false]
      omega
  have hr := jsonText_reads _ _ _ ht ((r ++ trail).length + 2) 0 trail
    (by simp only [List.cons_append, List.length_cons, List.length_append]; omega)
    (by omega) hterm
  unfold firstValue
  rw [hbody, skipSpace_blank lead _ hlead]
  simp only [List.cons_append] at hr ⊢
  rw [skipSpace_cons _ _ hsp]
  simp only [hr]

/-! ## Storing the JSON value of a record -/

/-- Decimal digits read from the left give the number they write. -/
theorem foldl_digits (ds : List Char) (a : Nat) :
    ds.foldl (fun n d => 10 * n + (d.toNat - 48)) a =
      a * 10 ^ ds.length + Nat.ofDigits 10 (ds.reverse.map fun c => c.toNat - 48) := by
  induction ds generalizing a with
  | nil => simp
  | cons d ds ih =>
    simp only [List.foldl_cons, ih, List.reverse_cons, List.map_append, List.map_cons,
      List.map_nil, Nat.ofDigits_append, List.length_cons, List.length_map, List.length_reverse,
      Nat.ofDigits_singleton]
    ring

/-- The integer part of a number text is a non-empty run of digits. -/
theorem intText_digits (ds : List Char) (h : IntText ds) :
    ∃ c cs, ds = c :: cs ∧ c.toNat ≠ 45 ∧ (c :: cs).all isDigit = true := by
  rcases h with rfl | ⟨d, r, rfl, h1, h2, h3⟩
  · exact ⟨_, _, rfl, by decide, by decide⟩
  · refine ⟨d, r, rfl, by omega, ?_⟩
    simp only [List.all_cons, Bool.and_eq_true, List.all_eq_true, isDigit_iff]
    exact ⟨⟨by omega, h2⟩, h3⟩

/-- The function `strconv.ParseInt` reads the text of an integer that fits in 64
bits. -/
theorem parseInt_integerText (t : List Char) (i : Int) (h : IntegerText t i)
    (hi : -9223372036854775808 ≤ i ∧ i ≤ 9223372036854775807) :
    parseInt (String.mk t) = some i := by
  obtain ⟨ds, hds, ⟨rfl, rfl⟩ | ⟨rfl, rfl⟩⟩ := h
  · obtain ⟨c, cs, rfl, hc, hall⟩ := intText_digits _ hds
    have hf := foldl_digits (c :: cs) 0
    simp only [zero_mul, zero_add] at hf
    unfold parseInt
    simp only [hc, if_false, hall, Bool.true_eq_false, hf]
    rw [if_pos (by omega)]
  · obtain ⟨c, cs, rfl, hc, hall⟩ := intText_digits _ hds
    have hf := foldl_digits (c :: cs) 0
    simp only [zero_mul, zero_add] at hf
    have h45 : (Char.ofNat 45).toNat = 45 := by decide
    unfold parseInt
    simp only [h45, if_true, hall, Bool.true_eq_false, hf, or_false, reduceCtorEq, if_false]
    rw [if_pos (by omega)]

/-- The names and types of the fields, field by field. -/
theorem typeOfFields_map (fs : List (String × GoValue)) :
    typeOfFields fs = fs.map fun f => (f.1, typeOf f.2) := by
  induction fs with
  | nil => simp [typeOfFields]
  | cons f fs ih => obtain ⟨k, v⟩ := f; simp [typeOfFields, ih]

/-- Fields of the same names and types have the same names. -/
theorem typeOfFields_keys (cur fs : List (String × GoValue))
    (h : typeOfFields cur = typeOfFields fs) : cur.map Prod.fst = fs.map Prod.fst := by
  have := congrArg (List.map Prod.fst) h
  simpa [typeOfFields_map, List.map_map, Function.comp_def] using this

/-- The fields of a zero value carry the names of the type. -/
theorem zeroFields_keys (ts : List (String × GoType)) :
    (zeroFields ts).map Prod.fst = ts.map Prod.fst := by
  induction ts with
  | nil => simp [zeroFields]
  | cons f ts ih => obtain ⟨k, t⟩ := f; simp [zeroFields, ih]

mutual
/-- The zero value of a type has that type. -/
theorem typeOf_zeroOf : ∀ t : GoType, typeOf (zeroOf t) = t
  | .string => by simp [zeroOf, typeOf]
  | .bool => by simp [zeroOf, typeOf]
  | .int => by simp [zeroOf, typeOf]
  | .struct fs => by simp [zeroOf, typeOf, typeOfFields_zeroFields fs]
  | .slice t => by simp [zeroOf, typeOf]
/-- The zero fields of a struct type have the names and types of the type. -/
theorem typeOfFields_zeroFields :
    ∀ ts : List (String × GoType), typeOfFields (zeroFields ts) = ts
  | [] => by simp [zeroFields, typeOfFields]
  | (k, t) :: ts => by
    simp [zeroFields, typeOfFields, typeOf_zeroOf t, typeOfFields_zeroFields ts]
end

mutual
/-- The zero value of the type of a well-formed value is well-formed. -/
theorem wellFormed_zeroOf : ∀ v : GoValue, wellFormed v → wellFormed (zeroOf (typeOf v))
  | .str _, _ => by simp [typeOf, zeroOf, wellFormed]
  | .bool _, _ => by simp [typeOf, zeroOf, wellFormed]
  | .int _, _ => by simp [typeOf, zeroOf, wellFormed]
  | .struct fs, h => by
    simp only [wellFormed] at h
    simp only [typeOf, zeroOf, wellFormed, zeroFields_keys]
    refine ⟨?_, wellFormedFields_zeroFields fs h.2⟩
    have := typeOfFields_map fs
    rw [this]
    simpa [List.map_map, Function.comp_def] using h.1
  | .slice _ _, _ => by simp [typeOf, zeroOf, wellFormed, wellFormedElems]
/-- The zero fields of well-formed fields are well-formed. -/
theorem wellFormedFields_zeroFields :
    ∀ fs : List (String × GoValue), wellFormedFields fs →
      wellFormedFields (zeroFields (typeOfFields fs))
  | [], _ => by simp [typeOfFields, zeroFields, wellFormedFields]
  | (k, v) :: fs, h => by
    simp only [wellFormedFields] at h
    simp only [typeOfFields, zeroFields, wellFormedFields]
    exact ⟨wellFormed_zeroOf v h.1, wellFormedFields_zeroFields fs h.2⟩
end

/-- Well-formed fields, field by field. -/
theorem wellFormedFields_iff (fs : List (String × GoValue)) :
    wellFormedFields fs ↔ ∀ k v, (k, v) ∈ fs → wellFormed v := by
  induction fs with
  | nil => simp [wellFormedFields]
  | cons f fs ih =>
    obtain ⟨k, v⟩ := f
    simp only [wellFormedFields, ih, List.mem_cons, Prod.mk.injEq]
    constructor
    · rintro ⟨h1, h2⟩ k1 v1 (⟨-, rfl⟩ | h)
      · exact h1
      · exact h2 k1 v1 h
    · intro h
      exact ⟨h k v (Or.inl ⟨rfl, rfl⟩), fun k1 v1 h1 => h k1 v1 (Or.inr h1)⟩

/-- A name names one field when the names are distinct. -/
theorem mem_unique {α : Type} (fs : List (String × α)) (hnd : (fs.map Prod.fst).Nodup)
    (k : String) (a b : α) (ha : (k, a) ∈ fs) (hb : (k, b) ∈ fs) : a = b := by
  induction fs with
  | nil => simp at ha
  | cons f fs ih =>
    simp only [List.map_cons, List.nodup_cons, List.mem_map, not_exists, not_and] at hnd
    rcases List.mem_cons.1 ha with rfl | ha1
    · rcases List.mem_cons.1 hb with hb1 | hb1
      · exact (Prod.mk.inj hb1).2.symm
      · exact absurd rfl (hnd.1 (k, b) hb1)
    · rcases List.mem_cons.1 hb with rfl | hb1
      · exact absurd rfl (hnd.1 (k, a) ha1)
      · exact ih hnd.2 ha1 hb1

/-- A name among distinct names is carried by one field. -/
theorem fieldCount_nodup {α : Type} (fs : List (String × α)) (hnd : (fs.map Prod.fst).Nodup)
    (k : String) (hk : k ∈ fs.map Prod.fst) : fieldCount fs k = 1 := by
  unfold fieldCount
  induction fs with
  | nil => simp at hk
  | cons f fs ih =>
    simp only [List.map_cons, List.nodup_cons] at hnd
    simp only [List.map_cons, List.mem_cons] at hk
    by_cases hf : f.1 = k
    · have hnone : List.filter (fun g => decide (g.1 = k)) fs = [] := by
        rw [List.filter_eq_nil_iff]
        intro g hg hgk
        simp only [decide_eq_true_eq] at hgk
        exact hnd.1 (hf ▸ hgk ▸ List.mem_map_of_mem Prod.fst hg)
      simp [List.filter_cons, hf, hnone]
    · rcases hk with hk | hk
      · exact absurd hk.symm hf
      · simp [List.filter_cons, hf, ih hnd.2 hk]

/-- A key that is the name of a field, among distinct names, picks that field. -/
theorem findField_nodup {α : Type} (fold : String → String) (fs : List (String × α))
    (hnd : (fs.map Prod.fst).Nodup) (k : String) (hk : k ∈ fs.map Prod.fst) :
    findField fold fs k = some k := by
  unfold findField
  cases hfind : fs.find? fun f => f.1 = k ∧ fieldCount fs f.1 = 1 with
  | some f =>
    have := List.find?_some hfind
    simp only [decide_eq_true_eq] at this
    simp [this.1]
  | none =>
    exfalso
    rw [List.find?_eq_none] at hfind
    obtain ⟨f, hf, rfl⟩ := List.mem_map.1 hk
    have := hfind f hf
    simp only [decide_eq_true_eq, true_and] at this
    exact this (fieldCount_nodup fs hnd f.1 hk)

/-- The value of a field that exists. -/
theorem getField_mem {α : Type} (fs : List (String × α)) (k : String)
    (hk : k ∈ fs.map Prod.fst) : ∃ c, getField fs k = some c ∧ (k, c) ∈ fs := by
  unfold getField
  cases hfind : fs.find? fun f => f.1 = k with
  | some f =>
    have h1 := List.find?_some hfind
    have h2 := List.mem_of_find?_eq_some hfind
    simp only [decide_eq_true_eq] at h1
    refine ⟨f.2, rfl, ?_⟩
    rw [← h1]; exact h2
  | none =>
    exfalso
    rw [List.find?_eq_none] at hfind
    obtain ⟨f, hf, rfl⟩ := List.mem_map.1 hk
    simpa using hfind f hf

/-- Setting a field keeps the names. -/
theorem setField_keys {α : Type} (k : String) (v : α) (fs : List (String × α)) :
    (setField k v fs).map Prod.fst = fs.map Prod.fst := by
  unfold setField
  rw [List.map_map]
  apply List.map_congr_left
  intro f _
  simp only [Function.comp]
  split <;> rfl

/-- Setting a field leaves the other fields alone. -/
theorem setField_mem_other {α : Type} (k : String) (v : α) (fs : List (String × α))
    (k1 : String) (v1 : α) (h : (k1, v1) ∈ fs) (hne : k1 ≠ k) : (k1, v1) ∈ setField k v fs := by
  unfold setField
  refine List.mem_map.2 ⟨(k1, v1), h, ?_⟩
  simp [hne]

/-- Setting a field that exists stores the value. -/
theorem setField_mem {α : Type} (k : String) (v : α) (fs : List (String × α))
    (hk : k ∈ fs.map Prod.fst) : (k, v) ∈ setField k v fs := by
  unfold setField
  obtain ⟨f, hf, rfl⟩ := List.mem_map.1 hk
  exact List.mem_map.2 ⟨f, hf, by simp⟩

/-- What a field holds after another value was set. -/
theorem mem_setField {α : Type} (k : String) (v : α) (fs : List (String × α))
    (k1 : String) (v1 : α) (h : (k1, v1) ∈ setField k v fs) :
    (k1 = k ∧ v1 = v) ∨ (k1, v1) ∈ fs := by
  unfold setField at h
  obtain ⟨f, hf, he⟩ := List.mem_map.1 h
  split at he
  · rename_i hfk
    left
    have := Prod.mk.inj he
    exact ⟨this.1 ▸ hfk, this.2.symm⟩
  · right; rw [← he]; exact hf

/-- Setting a field to a value of the type it has keeps the types. -/
theorem typeOfFields_setField (k : String) (v : GoValue) (fs : List (String × GoValue))
    (h : ∀ c, (k, c) ∈ fs → typeOf c = typeOf v) :
    typeOfFields (setField k v fs) = typeOfFields fs := by
  rw [typeOfFields_map, typeOfFields_map]
  unfold setField
  rw [List.map_map]
  apply List.map_congr_left
  intro f hf
  simp only [Function.comp]
  split
  · rename_i hfk
    have : typeOf f.2 = typeOf v := h f.2 (by rw [← hfk]; exact hf)
    simp [this]
  · rfl

/-- Fields with the names of `fs`, distinct, that hold every field of `fs`, are
`fs`. -/
theorem fields_eq (fs : List (String × GoValue)) :
    ∀ res : List (String × GoValue), res.map Prod.fst = fs.map Prod.fst →
      (fs.map Prod.fst).Nodup → (∀ k v, (k, v) ∈ fs → (k, v) ∈ res) → res = fs := by
  induction fs with
  | nil => intro res h _ _; simpa using h
  | cons f fs ih =>
    intro res h hnd hsub
    cases res with
    | nil => simp at h
    | cons g res =>
      simp only [List.map_cons, List.cons.injEq] at h
      have hnd1 := hnd
      simp only [List.map_cons, List.nodup_cons] at hnd1
      have hg : g = f := by
        rcases List.mem_cons.1 (hsub f.1 f.2 (List.mem_cons_self _ _)) with h1 | h1
        · exact h1.symm
        · exfalso
          apply hnd1.1
          rw [← h.2]
          exact List.mem_map_of_mem Prod.fst h1
      rw [hg, ih res h.2 hnd1.2]
      intro k v hkv
      rcases List.mem_cons.1 (hsub k v (List.mem_cons_of_mem _ hkv)) with h1 | h1
      · exfalso
        apply hnd1.1
        have : k = f.1 := by rw [hg] at h1; exact (congrArg Prod.fst h1)
        rw [← this]
        exact List.mem_map_of_mem Prod.fst hkv
      · exact h1

/-- Storing a JSON value that is a Go value in a destination of the same type
gives that value, and no type error. -/
theorem denotes_stores (fold : String → String) (jn : JNode) (gn : GNode)
    (h : Denotes jn gn) : Stores fold jn gn := by
  induction h with
  | str s =>
    intro path d _ _ ht
    cases d <;> simp [typeOf] at ht
    simp [assignValue]
  | bool b =>
    intro path d _ _ ht
    cases d <;> simp [typeOf] at ht
    simp [assignValue]
  | int t i hi =>
    intro path d hv _ ht
    cases d <;> simp [typeOf] at ht
    simp only [wellFormed] at hv
    simp [assignValue, parseInt_integerText t i hi hv]
  | null t =>
    intro path d _ _ ht
    cases d <;> simp [typeOf] at ht
    simp [assignValue, ht]
  | slice t js vs _ ih =>
    intro path d hv hd ht
    cases d <;> simp [typeOf] at ht
    subst ht
    simp only [wellFormed] at hv hd
    simp [assignValue, ih path _ _ hv hd]
  | struct ms fs _ hperm ih =>
    intro path d hv hd ht
    cases d <;> simp [typeOf] at ht
    rename_i cur
    simp only [wellFormed] at hv hd
    obtain ⟨res, hres, hagree⟩ := ih path cur [] hv.1 hv.2 ⟨ht, hd.2, by simp⟩
    have hkeys := typeOfFields_keys res fs hagree.1
    have heq : res = fs := by
      refine fields_eq fs res hkeys hv.1 fun k v hkv => hagree.2.2 k v ?_ hkv
      simp only [List.nil_append]
      exact hperm.mem_iff.2 (List.mem_map_of_mem Prod.fst hkv)
    simp [assignValue, hres, heq]
  | noElems =>
    intro path t ds _ _
    simp [assignElems]
  | elem j v js vs _ _ ihv ihs =>
    intro path t ds hvs hds
    simp only [wellFormedElems] at hvs
    have hd : wellFormed (ds.headD (zeroOf t)) ∧ typeOf (ds.headD (zeroOf t)) = typeOf v ∧
        wellFormedElems t ds.tail := by
      cases ds with
      | nil =>
        simp only [List.headD_nil, List.tail_nil, wellFormedElems, and_true]
        rw [← hvs.1]
        exact ⟨wellFormed_zeroOf v hvs.2.1, typeOf_zeroOf _⟩
      | cons d ds =>
        simp only [wellFormedElems] at hds
        simp only [List.headD_cons, List.tail_cons]
        exact ⟨hds.2.1, hds.1.trans hvs.1.symm, hds.2.2⟩
    have h1 := ihv path _ hvs.2.1 hd.1 hd.2.1
    have h2 := ihs path t _ hvs.2.2 hd.2.2
    simp only [assignElems, h1, h2, firstError]
  | noMembers fs =>
    intro path cur done _ _ hagree
    exact ⟨cur, by simp [assignMembers], by simpa using hagree⟩
  | member k j v ms fs hmem _ _ ihv ihs =>
    intro path cur done hnd hwf hagree
    have hkeys := typeOfFields_keys cur fs hagree.1
    have hk : k ∈ cur.map Prod.fst := by
      rw [hkeys]; exact List.mem_map_of_mem Prod.fst hmem
    have hndc : (cur.map Prod.fst).Nodup := by rw [hkeys]; exact hnd
    obtain ⟨c, hget, hc⟩ := getField_mem cur k hk
    have hfind := findField_nodup fold cur hndc k hk
    have htype : ∀ c1, (k, c1) ∈ cur → typeOf c1 = typeOf v := by
      intro c1 hc1
      have h1 : (k, typeOf c1) ∈ typeOfFields fs := by
        rw [← hagree.1, typeOfFields_map]
        exact List.mem_map.2 ⟨(k, c1), hc1, rfl⟩
      have h2 : (k, typeOf v) ∈ typeOfFields fs := by
        rw [typeOfFields_map]
        exact List.mem_map.2 ⟨(k, v), hmem, rfl⟩
      refine mem_unique (typeOfFields fs) ?_ k _ _ h1 h2
      rw [typeOfFields_map, List.map_map]
      exact hnd
    have hwv : wellFormed v := (wellFormedFields_iff fs).1 hwf k v hmem
    have hwc : wellFormed c := (wellFormedFields_iff cur).1 hagree.2.1 k c hc
    have hval := ihv (path ++ [k]) c hwv hwc (htype c hc)
    have hnext : FieldsAgree fs (done ++ [k]) (setField k v cur) := by
      refine ⟨?_, ?_, ?_⟩
      · rw [typeOfFields_setField k v cur htype]; exact hagree.1
      · rw [wellFormedFields_iff]
        intro k1 v1 h1
        rcases mem_setField k v cur k1 v1 h1 with ⟨-, rfl⟩ | h2
        · exact hwv
        · exact (wellFormedFields_iff cur).1 hagree.2.1 k1 v1 h2
      · intro k1 v1 hk1 hv1
        by_cases hkk : k1 = k
        · subst hkk
          rw [mem_unique fs hnd k1 v1 v hv1 hmem]
          exact setField_mem k1 v cur hk
        · refine setField_mem_other k v cur k1 v1 (hagree.2.2 k1 v1 ?_ hv1) hkk
          rcases List.mem_append.1 hk1 with h3 | h3
          · exact h3
          · exact absurd (List.mem_singleton.1 h3) hkk
    obtain ⟨res, hres, hagree2⟩ := ihs path (setField k v cur) (done ++ [k]) hnd hwf hnext
    refine ⟨res, ?_, ?_⟩
    · simp [assignMembers, hfind, hget, hval, hres, firstError]
    · simpa using hagree2

/-- The decoder stores a record from any of its JSON encodings. -/
theorem decode_encodes (fold : String → String) (body : String) (r dest : GoValue) (h : Nat)
    (hbody : Encodes body r h) (hdepth : h ≤ maxNestingDepth) (hr : wellFormed r)
    (hdest : wellFormed dest) (htype : typeOf dest = typeOf r) :
    decode (assignValue fold []) body dest = (r, none) := by
  obtain ⟨j, lead, t, trail, hdata, hlead, htrail, ht, hden⟩ := hbody
  unfold decode
  rw [firstValue_jsonText body j h lead t trail hdata hlead htrail ht hdepth]
  have := denotes_stores fold _ _ hden [] dest hr hdest htype
  simp only [this]

/-- Characters that need no escape stand for themselves in a string literal. -/
theorem stringText_plain (s : List Char)
    (h : ∀ c ∈ s, 32 ≤ c.toNat ∧ c.toNat ≠ 34 ∧ c.toNat ≠ 92) : StringText s s := by
  induction s with
  | nil => exact .nil
  | cons c s ih =>
    have hc := h c (List.mem_cons_self _ _)
    exact .raw c s s hc.1 hc.2.1 hc.2.2 (ih fun d hd => h d (List.mem_cons_of_mem _ hd))

/-- C3: on a client with a base URI, when the transport succeeds with a status in
[200,300) and the body is a JSON encoding of a record `r` of the destination's
type (any whitespace, any escapes in the strings, the members of an object in
any order, nested no deeper than the decoder allows), `request` returns nil and
the destination equals `r` afterwards. -/
theorem request_decodes_record {P : Type} (W : World P) (fold : String → String)
    (c : VaultClient) (hc : c.baseUri ≠ "") (method url : String) (requestBody : Option P)
    (req : Request) (hreq : (prepare W c method url requestBody).1 = .ok req) (res : Response)
    (hok : W.Succeeds req res) (hstatus : 200 ≤ res.statusCode ∧ res.statusCode < 300)
    (r dest : GoValue) (h : Nat) (hbody : Encodes res.body r h) (hdepth : h ≤ maxNestingDepth)
    (hr : wellFormed r) (hdest : wellFormed dest) (htype : typeOf dest = typeOf r) :
    request W (assignValue fold []) (some c) method url requestBody (some dest) =
      ⟨.returned none, some r,
        [.encode, .newRequest method (c.baseUri ++ url), .send req, .decode, .close]⟩ := by
  have h401 : res.statusCode ≠ 401 := by omega
  have hin : ¬ (res.statusCode < 200 ∨ res.statusCode ≥ 300) := by omega
  have hdec := decode_encodes fold res.body r dest h hbody hdepth hr hdest htype
  rw [request_answered W (assignValue fold []) c hc method url requestBody (some dest) req hreq res
    hok.1 h401]
  simp [hin, readBody, closeBody, hok.2, hdec]

/-- C3 at the creation of environment "dev", answered by 200 with the record of
id "env-1" and name "dev", written with the name first, with spaces, with the
hyphen as an escape, and with a line feed at the end. -/
theorem request_decodes_record_witness :
    (sampleClient.baseUri ≠ "" ∧
      (prepare
          (answering
            ⟨200, "\x7b \"name\": \"dev\", \"id\": \"env\\u002D1\" \x7d\n", none⟩)
          sampleClient "POST" "/environments" (some [("name", "dev")])).1 =
        .ok ⟨"POST", "https://vault.previder.io/environments", sampleHeader,
          "\x7b\"name\":\"dev\"\x7d\n"⟩ ∧
      (answering ⟨200, "\x7b \"name\": \"dev\", \"id\": \"env\\u002D1\" \x7d\n", none⟩).Succeeds
        ⟨"POST", "https://vault.previder.io/environments", sampleHeader,
          "\x7b\"name\":\"dev\"\x7d\n"⟩
        ⟨200, "\x7b \"name\": \"dev\", \"id\": \"env\\u002D1\" \x7d\n", none⟩ ∧
      (200 ≤ (⟨200, "\x7b \"name\": \"dev\", \"id\": \"env\\u002D1\" \x7d\n", none⟩ :
          Response).statusCode ∧
        (⟨200, "\x7b \"name\": \"dev\", \"id\": \"env\\u002D1\" \x7d\n", none⟩ :
          Response).statusCode < 300) ∧
      Encodes
        (⟨200, "\x7b \"name\": \"dev\", \"id\": \"env\\u002D1\" \x7d\n", none⟩ : Response).body
        (.struct [("id", .str "env-1"), ("name", .str "dev")]) 1 ∧
      1 ≤ maxNestingDepth ∧
      wellFormed (.struct [("id", .str "env-1"), ("name", .str "dev")]) ∧
      wellFormed (.struct [("id", .str "old"), ("name", .str "")]) ∧
      typeOf (.struct [("id", .str "old"), ("name", .str "")]) =
        typeOf (.struct [("id", .str "env-1"), ("name", .str "dev")])) ∧
      request (answering ⟨200, "\x7b \"name\": \"dev\", \"id\": \"env\\u002D1\" \x7d\n", none⟩)
          (assignValue id []) (some sampleClient) "POST" "/environments" (some [("name", "dev")])
          (some (.struct [("id", .str "old"), ("name", .str "")])) =
        ⟨.returned none, some (.struct [("id", .str "env-1"), ("name", .str "dev")]),
          [.encode, .newRequest "POST" "https://vault.previder.io/environments",
            .send ⟨"POST", "https://vault.previder.io/environments", sampleHeader,
              "\x7b\"name\":\"dev\"\x7d\n"⟩,
            .decode, .close]⟩ :=
  have hbody : Encodes "\x7b \"name\": \"dev\", \"id\": \"env\\u002D1\" \x7d\n"
      (.struct [("id", .str "env-1"), ("name", .str "dev")]) 1 :=
    ⟨.object [("name", .string "dev"), ("id", .string "env-1")], [], _, [Char.ofNat 10], rfl,
      by simp [Blank], by simp [Blank],
      .object _ 0 _
        (.member "name".data (.string "dev") _ 0 0 [Char.ofNat 32] "name".data [] [Char.ofNat 32] _
          [] _ (by simp [Blank]) (stringText_plain _ (by decide)) (by simp [Blank])
          (by simp [Blank]) (.string "dev".data _ (stringText_plain _ (by decide)))
          (by simp [Blank])
          (.lastMember "id".data (.string "env-1") 0 [Char.ofNat 32] "id".data [] [Char.ofNat 32]
            _ [Char.ofNat 32] (by simp [Blank]) (stringText_plain _ (by decide))
            (by simp [Blank]) (by simp [Blank])
            (.string "env-1".data _
              (.raw (Char.ofNat 101) _ _ (by decide) (by decide) (by decide)
                (.raw (Char.ofNat 110) _ _ (by decide) (by decide) (by decide)
                  (.raw (Char.ofNat 118) _ _ (by decide) (by decide) (by decide)
                    (.unicode (Char.ofNat 48) (Char.ofNat 48) (Char.ofNat 50) (Char.ofNat 68)
                      (Char.ofNat 45) _ _
                      ⟨0, 0, 2, 13, Or.inl rfl, Or.inl rfl, Or.inl rfl, Or.inr rfl, rfl⟩
                      (stringText_plain [Char.ofNat 49] (by decide)))))))
            (by simp [Blank]))),
      .struct _ _
        (.member "name" _ (.str "dev") _ _ (by simp) (.str _)
          (.member "id" _ (.str "env-1") _ _ (by simp) (.str _) (.noMembers _)))
        (by decide)⟩
  have hr : wellFormed (.struct [("id", .str "env-1"), ("name", .str "dev")]) := by
    simp [wellFormed, wellFormedFields]
  have hdest : wellFormed (.struct [("id", .str "old"), ("name", .str "")]) := by
    simp [wellFormed, wellFormedFields]
  ⟨⟨by decide, rfl, ⟨rfl, rfl⟩, by decide, hbody, by decide, hr, hdest, rfl⟩,
    request_decodes_record
      (answering ⟨200, "\x7b \"name\": \"dev\", \"id\": \"env\\u002D1\" \x7d\n", none⟩) id
      sampleClient (by decide) "POST" "/environments" (some [("name", "dev")]) _ rfl
      ⟨200, "\x7b \"name\": \"dev\", \"id\": \"env\\u002D1\" \x7d\n", none⟩ ⟨rfl, rfl⟩ (by decide)
      (.struct [("id", .str "env-1"), ("name", .str "dev")])
      (.struct [("id", .str "old"), ("name", .str "")]) 1 hbody (by decide) hr hdest rfl⟩

end VaultCli
